import Mathlib

/-!
Verification development for the batching & conversation-flush pipeline of a
WhatsApp conversational relay.  The TypeScript source keeps two evolving
variants of the history manager and of the outbound dispatcher; both variants
are embedded here (`...V1` refers to the first copy in the file, `...V2` to the
second, refactored copy).  Strings are modelled as `List Char`; JavaScript
regular-expression matching is modelled by explicit scanning functions that
mirror the concrete patterns used in the source.
-/

namespace BwhitePlast

/-! ### Characters, trimming, line splitting -/

/-- ASCII whitespace recognised by the JS `\s` class and `String.trim`
(the Unicode space classes are not exercised by this code base). -/
def isSpaceCh (c : Char) : Bool :=
  c = ' ' || c = '\t' || c = '\n' || c = '\r' || c = '\x0b' || c = '\x0c'

/-- Decimal digit, the JS `\d` class. -/
def isDigitCh (c : Char) : Bool :=
  '0' ≤ c && c ≤ '9'

/-- JS `String.prototype.trim`: drop whitespace from both ends. -/
def trimL (l : List Char) : List Char :=
  ((l.dropWhile isSpaceCh).reverse.dropWhile isSpaceCh).reverse

/-- JS `String.prototype.split('\n')`.  `"".split('\n')` is `[""]`. -/
def splitLines : List Char → List (List Char)
  | [] => [[]]
  | c :: cs =>
    if c = '\n' then [] :: splitLines cs
    else
      match splitLines cs with
      | [] => [[c]]
      | l :: ls => (c :: l) :: ls

/-- JS `Array.prototype.join` with a one-character separator. -/
def joinWith (sep : Char) : List (List Char) → List Char
  | [] => []
  | [l] => l
  | l :: ls => l ++ sep :: joinWith sep ls

/-- `lines.join('\n')`. -/
def joinLines : List (List Char) → List Char :=
  joinWith '\n'

/-! ### Decimal rendering and parsing of ids -/

/-- The decimal digit character for a value below ten. -/
def digitChar : Nat → Char
  | 0 => '0' | 1 => '1' | 2 => '2' | 3 => '3' | 4 => '4'
  | 5 => '5' | 6 => '6' | 7 => '7' | 8 => '8' | 9 => '9'
  | _ => '?'

/-- Numeric value of a decimal digit character. -/
def digitVal (c : Char) : Nat :=
  c.toNat - 48

/-- Fuel-indexed decimal rendering (the fuel only bounds the recursion). -/
def natDigitsAux : Nat → Nat → List Char
  | 0, _ => []
  | fuel + 1, n =>
    if n < 10 then [digitChar n]
    else natDigitsAux fuel (n / 10) ++ [digitChar (n % 10)]

/-- JS number-to-string conversion for a non-negative integer
(template literals such as `` `#${id}` ``). -/
def natDigits (n : Nat) : List Char :=
  natDigitsAux (n + 1) n

/-- `parseInt(s, 10)` restricted to an all-digit capture group. -/
def digitsToNat (ds : List Char) : Nat :=
  ds.foldl (fun a c => 10 * a + digitVal c) 0

/-! ### Literal matching of the directive and marker patterns -/

/-- Strip an exact literal from the front of the input, case-sensitively. -/
def stripLit : List Char → List Char → Option (List Char)
  | [], s => some s
  | _ :: _, [] => none
  | p :: ps, c :: cs => if c = p then stripLit ps cs else none

/-- Strip an exact literal from the front of the input, case-insensitively
(the JS `i` regex flag). -/
def stripLitCI : List Char → List Char → Option (List Char)
  | [], s => some s
  | _ :: _, [] => none
  | p :: ps, c :: cs => if c.toLower = p.toLower then stripLitCI ps cs else none

/-- The letters of the directive keyword with its colon, `MEDIA:`. -/
def mediaLit : List Char := ['m', 'e', 'd', 'i', 'a', ':']

/-- Match `\s*` then `(\d+)` (non-empty) then `\s*` then a closing `]`,
returning the capture and the characters after the match. -/
def wsDigitsWsRBracket (r3 : List Char) : Option (Nat × List Char) :=
  let ds := r3.takeWhile isDigitCh
  if ds.isEmpty then none
  else
    match (r3.dropWhile isDigitCh).dropWhile isSpaceCh with
    | c :: r5 => if c = ']' then some (digitsToNat ds, r5) else none
    | [] => none

/-- The part of the directive pattern after `[MEDIA:`. -/
def tagAfterLit (r2 : List Char) : Option (Nat × List Char) :=
  wsDigitsWsRBracket (r2.dropWhile isSpaceCh)

/-- Match `/\[MEDIA:\s*(\d+)\s*\]/i` at the head of the input; on success,
return the captured id and the characters after the match. -/
def mediaTagAt (s : List Char) : Option (Nat × List Char) :=
  match s with
  | [] => none
  | c :: r1 =>
    if c = '[' then (stripLitCI mediaLit r1).bind tagAfterLit else none

/-- First-match semantics of `line.match(/\[MEDIA:\s*(\d+)\s*\]/i)`,
returning the captured id. -/
def findTagId : List Char → Option Nat
  | [] => none
  | c :: cs =>
    match mediaTagAt (c :: cs) with
    | some (n, _) => some n
    | none => findTagId cs

/-- `/\[MEDIA:/i.test(line)`, the caption rejection test of the first
history-manager variant. -/
def hasMediaTagStart : List Char → Bool
  | [] => false
  | c :: cs => (c = '[' && (stripLitCI mediaLit cs).isSome) || hasMediaTagStart cs

/-- Literal head of the first variant's sent-media marker,
`[שלחתי מדיה: #`. -/
def markerV1Lit : List Char := "[שלחתי מדיה: #".toList

/-- Match `(\d+)` (non-empty) then a closing character, returning the capture
and the characters after the match. -/
def digitsThenClose (close : Char) (r : List Char) : Option (Nat × List Char) :=
  let ds := r.takeWhile isDigitCh
  if ds.isEmpty then none
  else
    match r.dropWhile isDigitCh with
    | c :: r2 => if c = close then some (digitsToNat ds, r2) else none
    | [] => none

/-- Match `/\[שלחתי מדיה: #(\d+)\]/` at the head of the input. -/
def markerV1At (s : List Char) : Option (Nat × List Char) :=
  (stripLit markerV1Lit s).bind (digitsThenClose ']')

/-- The first variant's rendered marker token `[שלחתי מדיה: #id]`. -/
def renderMarkerV1 (id : Nat) : List Char :=
  markerV1Lit ++ natDigits id ++ [']']

/-- Literal head of the second variant's `SENT_MARKER_PATTERN`,
`(שלחתי מדיה #`. -/
def markerV2Lit : List Char := "(שלחתי מדיה #".toList

/-- Match `SENT_MARKER_PATTERN = /\(שלחתי מדיה #(\d+)\)/` at the head. -/
def markerV2At (s : List Char) : Option (Nat × List Char) :=
  (stripLit markerV2Lit s).bind (digitsThenClose ')')

/-- The second variant's rendered marker token `(שלחתי מדיה #id)`. -/
def renderMarkerV2 (id : Nat) : List Char :=
  markerV2Lit ++ natDigits id ++ [')']

/-- First-match semantics of `line.match(SENT_MARKER_PATTERN)`. -/
def findMarkerV2Id : List Char → Option Nat
  | [] => none
  | c :: cs =>
    match markerV2At (c :: cs) with
    | some (n, _) => some n
    | none => findMarkerV2Id cs

/-- All ids captured when scanning a text with a `g`-flagged marker pattern
(`matchAll`).  The scan tries the matcher at every position; since neither
marker pattern can restart inside one of its own matches, this agrees with
`matchAll`'s advance-past-the-match behaviour. -/
def scanIds (M : List Char → Option (Nat × List Char)) : List Char → List Nat
  | [] => []
  | c :: cs =>
    match M (c :: cs) with
    | some (n, _) => n :: scanIds M cs
    | none => scanIds M cs

/-! ### Data model -/

/-- `ChatMessage.role`: the conversation log stores user and assistant turns. -/
inductive Role
  | user
  | assistant
deriving DecidableEq

/-- One persisted turn (`ChatMessage` in `types/normalized`). -/
structure ChatMessage where
  role : Role
  content : List Char
  timestamp : Nat
deriving DecidableEq

/-- Media kind of a catalog asset. -/
inductive MType
  | image
  | video
deriving DecidableEq

/-- `MediaItem` of the Cloudinary media service: `{url, type, description}`. -/
structure MediaItem where
  url : List Char
  mtype : MType
  description : List Char
deriving DecidableEq

/-- The fields of a `NormalizedIncoming` message that the flush reads. -/
structure NormalizedMessage where
  text : List Char
  mediaUrl : Option (List Char)
  timestamp : Nat
deriving DecidableEq

/-- A parsed media directive `{id, caption}`. -/
structure MediaRequest where
  id : Nat
  caption : List Char
deriving DecidableEq

/-- Result of the second variant's `parseAIResponse`. -/
structure ParsedResponse where
  textContent : List Char
  mediaRequests : List MediaRequest
deriving DecidableEq

/-- Observable actions of one flush, in program order: history writes
(`addToHistory`) and outbound dispatches (`sendMedia`, `sendTextMessage`,
voice replies). -/
inductive Event
  | appendTurn (m : ChatMessage)
  | dispatchMedia (id : Nat) (url : List Char) (mtype : MType) (caption : Option (List Char))
  | dispatchText (t : List Char)
  | dispatchVoice (t : List Char)
deriving DecidableEq

/-! ### Sent-media markers recorded in history -/

/-- First variant's `getSentMediaIdsFromHistory`: collect every id captured by
`/\[שלחתי מדיה: #(\d+)\]/g` inside assistant turns.  The JS `Set` is modelled
as a list queried by membership. -/
def getSentMediaIdsFromHistory (history : List ChatMessage) : List Nat :=
  history.foldl
    (fun acc m =>
      if m.role = Role.assistant then acc ++ scanIds markerV1At m.content else acc)
    []

/-- Second variant's `getSentMediaIds`, over `SENT_MARKER_PATTERN`. -/
def getSentMediaIds (history : List ChatMessage) : List Nat :=
  history.foldl
    (fun acc m =>
      if m.role = Role.assistant then acc ++ scanIds markerV2At m.content else acc)
    []

/-! ### Regex replacement helpers

Each is a left-to-right scan with a fuel argument equal to the input length;
every step consumes at least one character, so the fuel is never exhausted. -/

/-- `response.replace(/\[MEDIA:\s*\d+\s*\]/gi, "")`. -/
def removeTagsAux : Nat → List Char → List Char
  | _, [] => []
  | 0, s => s
  | fuel + 1, c :: cs =>
    match mediaTagAt (c :: cs) with
    | some (_, rest) => removeTagsAux fuel rest
    | none => c :: removeTagsAux fuel cs

/-- `response.replace(/\[MEDIA:\s*\d+\s*\]/gi, "")`. -/
def removeTags (s : List Char) : List Char :=
  removeTagsAux s.length s

/-- `response.replace(/\[MEDIA:\s*\d+\s*\]\n?/gi, "")` of `buildHistoryContent`. -/
def removeTagsNlAux : Nat → List Char → List Char
  | _, [] => []
  | 0, s => s
  | fuel + 1, c :: cs =>
    match mediaTagAt (c :: cs) with
    | some (_, rest) =>
      match rest with
      | '\n' :: r2 => removeTagsNlAux fuel r2
      | _ => removeTagsNlAux fuel rest
    | none => c :: removeTagsNlAux fuel cs

/-- `response.replace(/\[MEDIA:\s*\d+\s*\]\n?/gi, "")`. -/
def removeTagsNl (s : List Char) : List Char :=
  removeTagsNlAux s.length s

/-- `text.replace(SENT_MARKER_PATTERN, "")` with the `g` flag. -/
def removeMarkersV2Aux : Nat → List Char → List Char
  | _, [] => []
  | 0, s => s
  | fuel + 1, c :: cs =>
    match markerV2At (c :: cs) with
    | some (_, rest) => removeMarkersV2Aux fuel rest
    | none => c :: removeMarkersV2Aux fuel cs

/-- `text.replace(SENT_MARKER_PATTERN, "")`. -/
def removeMarkersV2 (s : List Char) : List Char :=
  removeMarkersV2Aux s.length s

/-- `text.replace(/\s+/g, " ")`. -/
def collapseWsAux : Nat → List Char → List Char
  | _, [] => []
  | 0, s => s
  | fuel + 1, c :: cs =>
    if isSpaceCh c then ' ' :: collapseWsAux fuel (cs.dropWhile isSpaceCh)
    else c :: collapseWsAux fuel cs

/-- `text.replace(/\s+/g, " ")`. -/
def collapseWs (s : List Char) : List Char :=
  collapseWsAux s.length s

/-- Second variant's `cleanMarkersForClient`. -/
def cleanMarkersForClient (text : List Char) : List Char :=
  trimL (collapseWs (removeMarkersV2 text))

/-! ### Response-directive parsers -/

/-- The inline directive scan of the first variant's `flushConversation`
(its lines 176-200): collect `remainingLines` and `mediaRequests`, consuming
the following non-empty line not starting a `[MEDIA:` tag as the caption. -/
def parseFlushV1 : List (List Char) → List (List Char) × List MediaRequest
  | [] => ([], [])
  | [line] =>
    match findTagId line with
    | some id => ([], [⟨id, []⟩])
    | none => if (trimL line).isEmpty then ([], []) else ([line], [])
  | line :: next :: rest =>
    match findTagId line with
    | some id =>
      let nt := trimL next
      if !nt.isEmpty && !hasMediaTagStart nt then
        let r := parseFlushV1 rest
        (r.1, ⟨id, nt⟩ :: r.2)
      else
        let r := parseFlushV1 (next :: rest)
        (r.1, ⟨id, []⟩ :: r.2)
    | none =>
      if (trimL line).isEmpty then parseFlushV1 (next :: rest)
      else
        let r := parseFlushV1 (next :: rest)
        (line :: r.1, r.2)

/-- The id a line yields in the second variant's `parseAIResponse`:
`correctMatch` (the `[MEDIA: n]` pattern) takes priority over `wrongMatch`
(the sent-marker pattern, which that parser also accepts). -/
def lineDirectiveId (line : List Char) : Option Nat :=
  match findTagId line with
  | some n => some n
  | none => findMarkerV2Id line

/-- The caption-acceptance test of `parseAIResponse`: the trimmed next line is
non-empty and matches neither directive pattern. -/
def captionOk (next : List Char) : Bool :=
  let nt := trimL next
  !nt.isEmpty && (findTagId nt).isNone && (findMarkerV2Id nt).isNone

/-- The line loop of `parseAIResponse`, with the accumulated `seenIds`. -/
def parseLoop : List Nat → List (List Char) → List (List Char) × List MediaRequest
  | _, [] => ([], [])
  | seen, [line] =>
    match lineDirectiveId line with
    | some id =>
      if id ∈ seen then ([], []) else ([], [⟨id, []⟩])
    | none => if (trimL line).isEmpty then ([], []) else ([line], [])
  | seen, line :: next :: rest =>
    match lineDirectiveId line with
    | some id =>
      if id ∈ seen then parseLoop seen (next :: rest)
      else
        if captionOk next then
          let r := parseLoop (id :: seen) rest
          (r.1, ⟨id, trimL next⟩ :: r.2)
        else
          let r := parseLoop (id :: seen) (next :: rest)
          (r.1, ⟨id, []⟩ :: r.2)
    | none =>
      if (trimL line).isEmpty then parseLoop seen (next :: rest)
      else
        let r := parseLoop seen (next :: rest)
        (line :: r.1, r.2)

/-- Second variant's `parseAIResponse`. -/
def parseAIResponse (response : List Char) : ParsedResponse :=
  let r := parseLoop [] (splitLines response)
  ⟨trimL (joinLines r.1), r.2⟩

/-! ### History content written for the agent turn -/

/-- First variant: `` `${mediaContext}\n${response.replace(...).trim()}` ``
where `mediaContext` joins the markers with newlines. -/
def historyContentV1 (response : List Char) (sentIds : List Nat) : List Char :=
  joinLines (sentIds.map renderMarkerV1) ++ '\n' :: trimL (removeTags response)

/-- Second variant's `buildHistoryContent`: markers joined by single spaces,
prefixed to the tag-stripped response when any media was sent. -/
def buildHistoryContent (response : List Char) (sentIds : List Nat) : List Char :=
  let content := trimL (removeTagsNl response)
  if sentIds.isEmpty then content
  else joinWith ' ' (sentIds.map renderMarkerV2) ++ '\n' :: content

/-! ### Media catalog resolution -/

/-- `getMediaById` of the Cloudinary media service: ids are 1-based positions
into the fetched catalog; out-of-range ids give `null`. -/
def getMediaById (catalog : List MediaItem) (id : Int) : Option MediaItem :=
  let index := id - 1
  if index < 0 ∨ (catalog.length : Int) ≤ index then none
  else catalog.get? index.toNat

/-! ### Flush orchestration -/

/-- `formatMessageForHistory`: the trimmed text when present, else a media
placeholder, else empty. -/
def formatMessageForHistory (msg : NormalizedMessage) : List Char :=
  if !msg.text.isEmpty then trimL msg.text
  else
    match msg.mediaUrl with
    | some u => "[מדיה: ".toList ++ u ++ [']']
    | none => []

/-- First variant's fixed apology for a failed completion. -/
def apologyV1 : List Char :=
  "מצטער, נתקלתי בקושי טכני זמני. אנא נסה שוב עוד רגע.".toList

/-- Second variant's fixed apology for a failed completion. -/
def apologyV2 : List Char :=
  "מצטערת, נתקלתי בקושי טכני זמני. אנא נסי שוב.".toList

/-- First variant's selection loop over `mediaRequests`: skip ids already
recorded in history, drop unresolvable ids, keep `(id, caption, asset)`. -/
def selectMediaV1 (alreadySent : List Nat) (catalog : List MediaItem) :
    List MediaRequest → List (Nat × List Char × MediaItem)
  | [] => []
  | r :: rs =>
    if r.id ∈ alreadySent then selectMediaV1 alreadySent catalog rs
    else
      match getMediaById catalog (r.id : Int) with
      | none => selectMediaV1 alreadySent catalog rs
      | some a => (r.id, r.caption, a) :: selectMediaV1 alreadySent catalog rs

/-- Second variant's `sendMediaItems`: resolve each request in order, dispatch
the resolved ones, and return the dispatch events with the sent ids. -/
def sendMediaItems (catalog : List MediaItem) :
    List MediaRequest → List Event × List Nat
  | [] => ([], [])
  | r :: rs =>
    match getMediaById catalog (r.id : Int) with
    | none => sendMediaItems catalog rs
    | some a =>
      let t := sendMediaItems catalog rs
      (Event.dispatchMedia r.id a.url a.mtype
          (if r.caption.isEmpty then none else some r.caption) :: t.1,
        r.id :: t.2)

/-- First variant's `flushConversation`, as the ordered list of its history
writes and dispatches.  `response` is the completion result (`null` = `none`);
`voiceOk` is the outcome of `handleVoiceReply` when attempted. -/
def flushConversationV1 (history : List ChatMessage) (response : Option (List Char))
    (batch : List NormalizedMessage) (catalog : List MediaItem)
    (voiceRepliesEnabled voiceOk : Bool) (now : Nat) : List Event :=
  match response with
  | none => [Event.dispatchText apologyV1]
  | some response =>
    let userEvents := batch.map fun m =>
      Event.appendTurn ⟨Role.user, formatMessageForHistory m, m.timestamp⟩
    let parsed := parseFlushV1 (splitLines response)
    let remainingLines := parsed.1
    let mediaRequests := parsed.2
    let alreadySent := getSentMediaIdsFromHistory history
    let mediaToSend := selectMediaV1 alreadySent catalog mediaRequests
    let sentMediaIds := mediaToSend.map fun x => x.1
    let markerEvents :=
      if sentMediaIds.isEmpty then []
      else [Event.appendTurn ⟨Role.assistant, historyContentV1 response sentMediaIds, now⟩]
    let mediaEvents := mediaToSend.map fun x =>
      Event.dispatchMedia x.1 x.2.2.url x.2.2.mtype
        (if x.2.1.isEmpty then none else some x.2.1)
    let plainAppend :=
      if sentMediaIds.isEmpty then
        [Event.appendTurn ⟨Role.assistant, trimL (removeTags response), now⟩]
      else []
    let finalResponse :=
      if mediaRequests.isEmpty then response else trimL (joinLines remainingLines)
    let sentAsVoice := voiceRepliesEnabled && mediaToSend.length == 0 && voiceOk
    let voiceEvents := if sentAsVoice then [Event.dispatchVoice finalResponse] else []
    let textEvents :=
      if !sentAsVoice && !finalResponse.isEmpty then [Event.dispatchText finalResponse]
      else []
    userEvents ++ markerEvents ++ mediaEvents ++ plainAppend ++ voiceEvents ++ textEvents

/-- Second variant's `flushConversation`. -/
def flushConversationV2 (history : List ChatMessage) (response : Option (List Char))
    (batch : List NormalizedMessage) (catalog : List MediaItem)
    (voiceRepliesEnabled voiceOk : Bool) (now : Nat) : List Event :=
  match response with
  | none => [Event.dispatchText apologyV2]
  | some response =>
    let userEvents := batch.map fun m =>
      Event.appendTurn ⟨Role.user, formatMessageForHistory m, m.timestamp⟩
    let parsed := parseAIResponse response
    let alreadySent := getSentMediaIds history
    let newRequests := parsed.mediaRequests.filter fun r => r.id ∉ alreadySent
    let sent := sendMediaItems catalog newRequests
    let appendEvents :=
      [Event.appendTurn ⟨Role.assistant, buildHistoryContent response sent.2, now⟩]
    let cleanText := cleanMarkersForClient parsed.textContent
    let sentAsVoice := voiceRepliesEnabled && sent.2.isEmpty && !cleanText.isEmpty && voiceOk
    let voiceEvents := if sentAsVoice then [Event.dispatchVoice cleanText] else []
    let textEvents :=
      if !sentAsVoice && !cleanText.isEmpty then [Event.dispatchText cleanText] else []
    userEvents ++ sent.1 ++ appendEvents ++ voiceEvents ++ textEvents

/-! ### The conversation log and truncation -/

/-- `addToHistory` truncation (first variant, and the in-memory `splice` path
of both variants): push, then keep the last `cap` turns when over the cap. -/
def addToHistory (cap : Nat) (history : List ChatMessage) (message : ChatMessage) :
    List ChatMessage :=
  let h := history ++ [message]
  if cap < h.length then h.drop (h.length - cap) else h

/-- JS `Array.prototype.slice(-n)`: the last `n` elements, except that
`slice(-0)` is `slice(0)`, the whole array. -/
def jsSliceNeg (l : List ChatMessage) (n : Nat) : List ChatMessage :=
  if n = 0 then l else l.drop (l.length - n)

/-- The second variant's tiered-store path: `history.slice(-cap)` after push. -/
def addToHistorySliceNeg (cap : Nat) (history : List ChatMessage)
    (message : ChatMessage) : List ChatMessage :=
  let h := history ++ [message]
  if cap < h.length then jsSliceNeg h cap else h

/-- Apply one flush event to the stored log: history writes go through the
truncating append; dispatches leave the log unchanged. -/
def applyEvent (cap : Nat) (log : List ChatMessage) : Event → List ChatMessage
  | Event.appendTurn m => addToHistory cap log m
  | _ => log

/-- The stored log after a flush's events. -/
def finalLog (cap : Nat) (log : List ChatMessage) (tr : List Event) :
    List ChatMessage :=
  tr.foldl (applyEvent cap) log

/-! ### Outbound dispatcher -/

/-- Outcome of one HTTP delivery attempt: the API accepted (`success: true`),
the API answered with `success: false`, the request failed with HTTP 429, or
it failed with any other error (which the `catch` also absorbs). -/
inductive SendOutcome
  | delivered
  | apiRejected
  | rateLimited
  | transportError
deriving DecidableEq

/-- `MAX_RETRIES` of every send function. -/
def MAX_RETRIES : Nat := 3

/-- `RETRY_DELAY_MS` of every send function. -/
def RETRY_DELAY_MS : Nat := 5000

/-- `sendTextMessage` with the transport abstracted as an oracle from attempt
index to outcome; returns the boolean given to the caller and the backoff
delays waited, in order.  Every error path of the source is caught and
returns `false`, so the model is a total function into `Bool`. -/
def sendTextMessage (transport : Nat → SendOutcome) (retryCount : Nat) :
    Bool × List Nat :=
  match transport retryCount with
  | SendOutcome.delivered => (true, [])
  | SendOutcome.apiRejected => (false, [])
  | SendOutcome.rateLimited =>
    if retryCount < MAX_RETRIES then
      let delay := RETRY_DELAY_MS * (retryCount + 1)
      let r := sendTextMessage transport (retryCount + 1)
      (r.1, delay :: r.2)
    else (false, [])
  | SendOutcome.transportError => (false, [])
termination_by MAX_RETRIES - retryCount
decreasing_by simp_wf; omega

/-- `sendMedia`'s inner `send` closure; identical retry skeleton. -/
def sendMedia (transport : Nat → SendOutcome) (retryCount : Nat) :
    Bool × List Nat :=
  match transport retryCount with
  | SendOutcome.delivered => (true, [])
  | SendOutcome.apiRejected => (false, [])
  | SendOutcome.rateLimited =>
    if retryCount < MAX_RETRIES then
      let delay := RETRY_DELAY_MS * (retryCount + 1)
      let r := sendMedia transport (retryCount + 1)
      (r.1, delay :: r.2)
    else (false, [])
  | SendOutcome.transportError => (false, [])
termination_by MAX_RETRIES - retryCount
decreasing_by simp_wf; omega

/-- `sendVoiceMessage`; identical retry skeleton (the Cloudinary cleanup on
its side paths does not affect the returned boolean or the delays). -/
def sendVoiceMessage (transport : Nat → SendOutcome) (retryCount : Nat) :
    Bool × List Nat :=
  match transport retryCount with
  | SendOutcome.delivered => (true, [])
  | SendOutcome.apiRejected => (false, [])
  | SendOutcome.rateLimited =>
    if retryCount < MAX_RETRIES then
      let delay := RETRY_DELAY_MS * (retryCount + 1)
      let r := sendVoiceMessage transport (retryCount + 1)
      (r.1, delay :: r.2)
    else (false, [])
  | SendOutcome.transportError => (false, [])
termination_by MAX_RETRIES - retryCount
decreasing_by simp_wf; omega

/-! ### Trace predicates for the persistence-ordering claims -/

/-- The id of a media dispatch event, if it is one. -/
def mediaDispatchId : Event → Option Nat
  | Event.dispatchMedia id _ _ _ => some id
  | _ => none

/-- Ids of all media dispatches of a trace, in dispatch order. -/
def dispatchedIds (tr : List Event) : List Nat :=
  tr.filterMap mediaDispatchId

/-- Every media dispatch of the trace is preceded by the append of an
assistant turn whose content carries a sent-media marker (as extracted by
`markersOf`) for the dispatched id. -/
def markersPersistedBefore (markersOf : List Char → List Nat) (tr : List Event) : Prop :=
  ∀ (j id : Nat) (u : List Char) (ty : MType) (cap : Option (List Char)),
    tr[j]? = some (Event.dispatchMedia id u ty cap) →
    ∃ (i : Nat) (m : ChatMessage), i < j ∧ tr[i]? = some (Event.appendTurn m) ∧
      m.role = Role.assistant ∧ id ∈ markersOf m.content


/-! #### Decimal digits -/

theorem digitChar_isDigit {n : Nat} (h : n < 10) : isDigitCh (digitChar n) = true := by
  interval_cases n <;> decide

theorem digitVal_digitChar {n : Nat} (h : n < 10) : digitVal (digitChar n) = n := by
  interval_cases n <;> decide

theorem digitsToNat_append (xs : List Char) (c : Char) :
    digitsToNat (xs ++ [c]) = 10 * digitsToNat xs + digitVal c := by
  simp [digitsToNat, List.foldl_append]

theorem natDigitsAux_all_digit : ∀ fuel n, n < fuel →
    ∀ c ∈ natDigitsAux fuel n, isDigitCh c = true := by
  intro fuel
  induction fuel with
  | zero => omega
  | succ f ih =>
    intro n hn c hc
    by_cases h10 : n < 10
    · simp [natDigitsAux, h10] at hc
      subst hc; exact digitChar_isDigit h10
    · simp [natDigitsAux, h10] at hc
      rcases hc with hc | hc
      · exact ih (n / 10) (by omega) c hc
      · subst hc; exact digitChar_isDigit (by omega)

theorem natDigitsAux_ne_nil : ∀ fuel n, n < fuel → natDigitsAux fuel n ≠ [] := by
  intro fuel
  induction fuel with
  | zero => omega
  | succ f ih =>
    intro n hn
    by_cases h10 : n < 10
    · simp [natDigitsAux, h10]
    · simp [natDigitsAux, h10]

theorem digitsToNat_natDigitsAux : ∀ fuel n, n < fuel →
    digitsToNat (natDigitsAux fuel n) = n := by
  intro fuel
  induction fuel with
  | zero => omega
  | succ f ih =>
    intro n hn
    by_cases h10 : n < 10
    · simp [natDigitsAux, h10, digitsToNat, digitVal_digitChar h10]
    · simp only [natDigitsAux, h10, if_false]
      rw [digitsToNat_append, ih (n / 10) (by omega), digitVal_digitChar (by omega)]
      omega

theorem natDigits_all_digit (n : Nat) : ∀ c ∈ natDigits n, isDigitCh c = true :=
  natDigitsAux_all_digit (n + 1) n (by omega)

theorem natDigits_ne_nil (n : Nat) : natDigits n ≠ [] :=
  natDigitsAux_ne_nil (n + 1) n (by omega)

theorem digitsToNat_natDigits (n : Nat) : digitsToNat (natDigits n) = n :=
  digitsToNat_natDigitsAux (n + 1) n (by omega)

/-! #### takeWhile, dropWhile, stripLit -/

theorem stripLit_self (lit : List Char) : ∀ rest, stripLit lit (lit ++ rest) = some rest := by
  induction lit with
  | nil => intro rest; rfl
  | cons p ps ih => intro rest; simp [stripLit, ih]

theorem takeWhile_all_append {p : Char → Bool} {l : List Char} (h : ∀ c ∈ l, p c = true)
    {c : Char} (hc : p c = false) (r : List Char) :
    (l ++ c :: r).takeWhile p = l ∧ (l ++ c :: r).dropWhile p = c :: r := by
  induction l with
  | nil => simp [List.takeWhile, List.dropWhile, hc]
  | cons a as ih =>
    have ha : p a = true := h a (by simp)
    have := ih (fun x hx => h x (by simp [hx]))
    simp [List.takeWhile, List.dropWhile, ha, this.1, this.2]

theorem takeWhile_append_of_dropWhile_ne_nil {p : Char → Bool} :
    ∀ (l : List Char), l.dropWhile p ≠ [] → ∀ r,
      (l ++ r).takeWhile p = l.takeWhile p ∧ (l ++ r).dropWhile p = l.dropWhile p ++ r := by
  intro l
  induction l with
  | nil => intro h; simp [List.dropWhile] at h
  | cons a as ih =>
    intro h r
    by_cases ha : p a
    · have has : as.dropWhile p ≠ [] := by
        simpa [List.dropWhile, ha] using h
      have := ih has r
      simp [List.takeWhile, List.dropWhile, ha, this.1, this.2]
    · simp [List.takeWhile, List.dropWhile, ha]

theorem dropWhile_append_of_eq_nil {p : Char → Bool} :
    ∀ (l r : List Char), l.dropWhile p = [] → (l ++ r).dropWhile p = r.dropWhile p := by
  intro l
  induction l with
  | nil => simp
  | cons a as ih =>
    intro r h
    by_cases ha : p a
    · simp only [List.dropWhile, ha] at h
      simp [List.dropWhile, ha, ih r h]
    · simp [List.dropWhile, ha] at h

/-! #### Head matches on rendered marker tokens -/

theorem digitsThenClose_render (close : Char) (hclose : isDigitCh close = false)
    (id : Nat) (rest : List Char) :
    digitsThenClose close (natDigits id ++ close :: rest) = some (id, rest) := by
  have hball := takeWhile_all_append (p := isDigitCh) (natDigits_all_digit id) hclose rest
  simp [digitsThenClose, hball.1, hball.2, List.isEmpty_iff, natDigits_ne_nil,
    digitsToNat_natDigits]

theorem markerV1At_render (id : Nat) (rest : List Char) :
    markerV1At (renderMarkerV1 id ++ rest) = some (id, rest) := by
  simp only [markerV1At, renderMarkerV1, List.append_assoc, List.cons_append,
    List.nil_append, stripLit_self, Option.some_bind]
  exact digitsThenClose_render ']' (by decide) id rest

theorem markerV2At_render (id : Nat) (rest : List Char) :
    markerV2At (renderMarkerV2 id ++ rest) = some (id, rest) := by
  simp only [markerV2At, renderMarkerV2, List.append_assoc, List.cons_append,
    List.nil_append, stripLit_self, Option.some_bind]
  exact digitsThenClose_render ')' (by decide) id rest

/-! #### Scanning -/

theorem scanIds_cons_superset (M : List Char → Option (Nat × List Char)) (c : Char)
    (l : List Char) : ∀ x ∈ scanIds M l, x ∈ scanIds M (c :: l) := by
  intro x hx
  simp only [scanIds]
  cases h : M (c :: l) with
  | none => exact hx
  | some v => simp [hx]

theorem scanIds_append_superset (M : List Char → Option (Nat × List Char))
    (pre l : List Char) : ∀ x ∈ scanIds M l, x ∈ scanIds M (pre ++ l) := by
  induction pre with
  | nil => simp
  | cons c cs ih =>
    intro x hx
    exact scanIds_cons_superset M c (cs ++ l) x (ih x hx)

theorem scanIds_head (M : List Char → Option (Nat × List Char)) {c : Char}
    {cs r : List Char} {n : Nat} (h : M (c :: cs) = some (n, r)) :
    n ∈ scanIds M (c :: cs) := by
  simp [scanIds, h]

/-- Ids rendered as marker tokens and joined by any separator are all found
when scanning the result followed by arbitrary text. -/
theorem scanIds_join_markers (M : List Char → Option (Nat × List Char))
    (render : Nat → List Char)
    (hhead : ∀ id rest, M (render id ++ rest) = some (id, rest))
    (hne : ∀ id, render id ≠ [])
    (sep : Char) :
    ∀ (ids : List Nat) (rest : List Char) (id : Nat), id ∈ ids →
      id ∈ scanIds M (joinWith sep (ids.map render) ++ rest) := by
  intro ids
  induction ids with
  | nil => simp
  | cons a as ih =>
    intro rest id hid
    rcases List.mem_cons.mp hid with h | h
    · subst h
      cases has : as with
      | nil =>
        simp only [has, List.map_cons, List.map_nil, joinWith]
        cases hr : render id with
        | nil => exact absurd hr (hne id)
        | cons c cs =>
          have := hhead id rest
          rw [hr] at this
          exact scanIds_head M (by simpa using this)
      | cons b bs =>
        simp only [has, List.map_cons, joinWith, List.append_assoc]
        cases hr : render id with
        | nil => exact absurd hr (hne id)
        | cons c cs =>
          have := hhead id (sep :: (joinWith sep (render b :: bs.map render) ++ rest))
          rw [hr] at this
          simpa using scanIds_head M (by simpa using this)
    · cases has : as with
      | nil => simp [has] at h
      | cons b bs =>
        subst has
        have htail := ih rest id h
        have := scanIds_append_superset M (render a ++ [sep])
          (joinWith sep (render b :: bs.map render) ++ rest) id htail
        simp only [List.map_cons, joinWith, List.append_assoc]
        simpa [List.append_assoc] using this


/-! #### Whitespace facts -/

theorem ws_cases {c : Char} (h : isSpaceCh c = true) :
    c = ' ' ∨ c = '\t' ∨ c = '\n' ∨ c = '\r' ∨ c = '\x0b' ∨ c = '\x0c' := by
  have h2 := h
  simp [isSpaceCh] at h2
  tauto

theorem ws_not_digit {c : Char} (h : isSpaceCh c = true) : isDigitCh c = false := by
  rcases ws_cases h with h | h | h | h | h | h <;> subst h <;> decide

theorem ws_ne_lbracket {c : Char} (h : isSpaceCh c = true) : (c = '[') = False := by
  rcases ws_cases h with h | h | h | h | h | h <;> subst h <;> decide

theorem ws_ne_lparen {c : Char} (h : isSpaceCh c = true) : (c = '(') = False := by
  rcases ws_cases h with h | h | h | h | h | h <;> subst h <;> decide

theorem ws_ne_close {c close : Char} (h : isSpaceCh c = true)
    (hclose : isSpaceCh close = false) : (c = close) = False := by
  simp only [eq_iff_iff, iff_false]
  intro he
  subst he
  rw [h] at hclose
  cases hclose

theorem takeWhile_all_ws_not_digit {b : List Char} (hb : ∀ c ∈ b, isSpaceCh c = true) :
    b.takeWhile isDigitCh = [] := by
  cases b with
  | nil => rfl
  | cons w b' =>
    simp [List.takeWhile, ws_not_digit (hb w (by simp))]

theorem dropWhile_all_ws {b : List Char} (hb : ∀ c ∈ b, isSpaceCh c = true) :
    b.dropWhile isSpaceCh = [] :=
  List.dropWhile_eq_nil_iff.mpr hb

/-! #### Matches are insensitive to surrounding whitespace -/

theorem digitsThenClose_ws_append {close : Char} (hclose : isSpaceCh close = false) :
    ∀ (s2 b : List Char) (n : Nat) (r : List Char), (∀ c ∈ b, isSpaceCh c = true) →
    digitsThenClose close (s2 ++ b) = some (n, r) →
    ∃ r2, digitsThenClose close s2 = some (n, r2) := by
  intro s2 b n r hb h
  cases b with
  | nil => exact ⟨r, by simpa using h⟩
  | cons w b' =>
  have hw : isSpaceCh w = true := hb w (by simp)
  by_cases hv : s2.dropWhile isDigitCh = []
  · have hall : ∀ x ∈ s2, isDigitCh x = true := List.dropWhile_eq_nil_iff.mp hv
    have htk := takeWhile_all_append hall (ws_not_digit hw) b'
    rw [digitsThenClose, htk.1, htk.2] at h
    rcases hem : s2.isEmpty
    · simp only [hem, Bool.false_eq_true, if_false] at h
      rw [if_neg (by simp [ws_ne_close hw hclose])] at h
      cases h
    · simp [hem] at h
  · have hsp := takeWhile_append_of_dropWhile_ne_nil s2 hv (w :: b')
    rw [digitsThenClose, hsp.1, hsp.2] at h
    cases hvf : s2.dropWhile isDigitCh with
    | nil => exact absurd hvf hv
    | cons vc v' =>
      rw [hvf] at h
      by_cases hem : (s2.takeWhile isDigitCh).isEmpty
      · simp [hem] at h
      · simp only [hem, Bool.false_eq_true, if_false, List.cons_append] at h
        by_cases hvc : vc = close
        · rw [if_pos hvc] at h
          simp only [Option.some.injEq, Prod.mk.injEq] at h
          refine ⟨v', ?_⟩
          rw [digitsThenClose, hvf]
          simp only [hem, Bool.false_eq_true, if_false, if_pos hvc, h.1]
        · rw [if_neg hvc] at h; cases h


theorem stripLit_all_ws : ∀ (lit b r : List Char), (∀ c ∈ b, isSpaceCh c = true) →
    stripLit lit b = some r → ∀ c ∈ r, isSpaceCh c = true := by
  intro lit
  induction lit with
  | nil =>
    intro b r hb h
    simp [stripLit] at h
    subst h; exact hb
  | cons p ps ih =>
    intro b r hb h
    cases b with
    | nil => simp [stripLit] at h
    | cons c cs =>
      by_cases hc : c = p
      · simp [stripLit, hc] at h
        exact ih cs r (fun x hx => hb x (by simp [hx])) h
      · simp [stripLit, hc] at h

theorem stripLit_ws_append : ∀ (lit s b r : List Char),
    (∀ c ∈ b, isSpaceCh c = true) → stripLit lit (s ++ b) = some r →
    (∃ s2, stripLit lit s = some s2 ∧ r = s2 ++ b) ∨ (∀ c ∈ r, isSpaceCh c = true) := by
  intro lit
  induction lit with
  | nil =>
    intro s b r hb h
    simp [stripLit] at h
    exact Or.inl ⟨s, rfl, h.symm⟩
  | cons p ps ih =>
    intro s b r hb h
    cases s with
    | nil =>
      simp only [List.nil_append] at h
      exact Or.inr (stripLit_all_ws (p :: ps) b r hb h)
    | cons c cs =>
      by_cases hc : c = p
      · simp only [List.cons_append, stripLit, hc, if_pos rfl] at h ⊢
        exact ih cs b r hb h
      · simp [stripLit, hc] at h

theorem stripLitCI_all_ws : ∀ (lit b r : List Char), (∀ c ∈ b, isSpaceCh c = true) →
    stripLitCI lit b = some r → ∀ c ∈ r, isSpaceCh c = true := by
  intro lit
  induction lit with
  | nil =>
    intro b r hb h
    simp [stripLitCI] at h
    subst h; exact hb
  | cons p ps ih =>
    intro b r hb h
    cases b with
    | nil => simp [stripLitCI] at h
    | cons c cs =>
      by_cases hc : c.toLower = p.toLower
      · simp [stripLitCI, hc] at h
        exact ih cs r (fun x hx => hb x (by simp [hx])) h
      · simp [stripLitCI, hc] at h

theorem stripLitCI_ws_append : ∀ (lit s b r : List Char),
    (∀ c ∈ b, isSpaceCh c = true) → stripLitCI lit (s ++ b) = some r →
    (∃ s2, stripLitCI lit s = some s2 ∧ r = s2 ++ b) ∨ (∀ c ∈ r, isSpaceCh c = true) := by
  intro lit
  induction lit with
  | nil =>
    intro s b r hb h
    simp [stripLitCI] at h
    exact Or.inl ⟨s, rfl, h.symm⟩
  | cons p ps ih =>
    intro s b r hb h
    cases s with
    | nil =>
      simp only [List.nil_append] at h
      exact Or.inr (stripLitCI_all_ws (p :: ps) b r hb h)
    | cons c cs =>
      by_cases hc : c.toLower = p.toLower
      · simp only [List.cons_append, stripLitCI, hc, if_pos rfl] at h ⊢
        exact ih cs b r hb h
      · simp [stripLitCI, hc] at h

theorem wsDigitsWsRBracket_all_ws {b : List Char} (hb : ∀ c ∈ b, isSpaceCh c = true) :
    wsDigitsWsRBracket (b.takeWhile isDigitCh) = none := by
  rw [takeWhile_all_ws_not_digit hb]
  rfl

theorem wsDigitsWsRBracket_ws_append :
    ∀ (u b : List Char) (n : Nat) (r : List Char), (∀ c ∈ b, isSpaceCh c = true) →
    wsDigitsWsRBracket (u ++ b) = some (n, r) →
    ∃ r2, wsDigitsWsRBracket u = some (n, r2) := by
  intro u b n r hb h
  cases b with
  | nil => exact ⟨r, by simpa using h⟩
  | cons w b' =>
  have hw : isSpaceCh w = true := hb w (by simp)
  by_cases hv : u.dropWhile isDigitCh = []
  · have hall : ∀ x ∈ u, isDigitCh x = true := List.dropWhile_eq_nil_iff.mp hv
    have htk := takeWhile_all_append hall (ws_not_digit hw) b'
    rw [wsDigitsWsRBracket, htk.1, htk.2] at h
    rcases hem : u.isEmpty
    · simp only [hem, Bool.false_eq_true, if_false] at h
      rw [dropWhile_all_ws hb] at h
      cases h
    · simp [hem] at h
  · have hsp := takeWhile_append_of_dropWhile_ne_nil u hv (w :: b')
    rw [wsDigitsWsRBracket, hsp.1, hsp.2] at h
    by_cases hem : (u.takeWhile isDigitCh).isEmpty
    · simp [hem] at h
    · simp only [hem, Bool.false_eq_true, if_false] at h
      by_cases hw2 : (u.dropWhile isDigitCh).dropWhile isSpaceCh = []
      · rw [dropWhile_append_of_eq_nil _ _ hw2, dropWhile_all_ws hb] at h
        cases h
      · have hsp2 := takeWhile_append_of_dropWhile_ne_nil (u.dropWhile isDigitCh) hw2 (w :: b')
        rw [hsp2.2] at h
        cases hwf : (u.dropWhile isDigitCh).dropWhile isSpaceCh with
        | nil => exact absurd hwf hw2
        | cons wc w' =>
          rw [hwf] at h
          simp only [List.cons_append] at h
          by_cases hwc : wc = ']'
          · rw [if_pos hwc] at h
            simp only [Option.some.injEq, Prod.mk.injEq] at h
            refine ⟨w', ?_⟩
            rw [wsDigitsWsRBracket]
            simp only [hem, Bool.false_eq_true, if_false, hwf, if_pos hwc, h.1]
          · rw [if_neg hwc] at h; cases h

theorem tagAfterLit_ws_append :
    ∀ (s2 b : List Char) (n : Nat) (r : List Char), (∀ c ∈ b, isSpaceCh c = true) →
    tagAfterLit (s2 ++ b) = some (n, r) → ∃ r2, tagAfterLit s2 = some (n, r2) := by
  intro s2 b n r hb h
  rw [tagAfterLit] at h
  by_cases hu : s2.dropWhile isSpaceCh = []
  · rw [dropWhile_append_of_eq_nil _ _ hu, dropWhile_all_ws hb] at h
    rw [show ([] : List Char) = [].takeWhile isDigitCh from rfl,
      wsDigitsWsRBracket_all_ws (b := [])] at h
    · cases h
    · simp
  · have hsp := takeWhile_append_of_dropWhile_ne_nil s2 hu b
    rw [hsp.2] at h
    exact wsDigitsWsRBracket_ws_append _ b n r hb h

theorem digitsThenClose_all_ws {close : Char} {b : List Char}
    (hb : ∀ c ∈ b, isSpaceCh c = true) : digitsThenClose close b = none := by
  rw [digitsThenClose]
  simp [takeWhile_all_ws_not_digit hb]

theorem digitsThenClose_ws_append2 {close : Char} (hclose : isSpaceCh close = false)
    (lit : List Char) :
    ∀ (s b : List Char) (n : Nat) (r : List Char), (∀ c ∈ b, isSpaceCh c = true) →
    (stripLit lit (s ++ b)).bind (digitsThenClose close) = some (n, r) →
    ∃ r2, (stripLit lit s).bind (digitsThenClose close) = some (n, r2) := by
  intro s b n r hb h
  cases hstrip : stripLit lit (s ++ b) with
  | none => rw [hstrip] at h; cases h
  | some r0 =>
    rw [hstrip, Option.some_bind] at h
    rcases stripLit_ws_append lit s b r0 hb hstrip with ⟨s2, hs2, hr0⟩ | hall
    · subst hr0
      obtain ⟨r2, hr2⟩ := digitsThenClose_ws_append hclose s2 b n r hb h
      exact ⟨r2, by rw [hs2, Option.some_bind, hr2]⟩
    · rw [digitsThenClose_all_ws hall] at h
      cases h

theorem markerV1At_ws_append {s b : List Char} {n : Nat} {r : List Char}
    (hb : ∀ c ∈ b, isSpaceCh c = true) (h : markerV1At (s ++ b) = some (n, r)) :
    ∃ r2, markerV1At s = some (n, r2) :=
  digitsThenClose_ws_append2 (by decide) markerV1Lit s b n r hb h

theorem markerV2At_ws_append {s b : List Char} {n : Nat} {r : List Char}
    (hb : ∀ c ∈ b, isSpaceCh c = true) (h : markerV2At (s ++ b) = some (n, r)) :
    ∃ r2, markerV2At s = some (n, r2) :=
  digitsThenClose_ws_append2 (by decide) markerV2Lit s b n r hb h

theorem mediaTagAt_ws_append : ∀ (s b : List Char) (n : Nat) (r : List Char),
    (∀ c ∈ b, isSpaceCh c = true) → mediaTagAt (s ++ b) = some (n, r) →
    ∃ n2 r2, mediaTagAt s = some (n2, r2) := by
  intro s b n r hb h
  cases s with
  | nil =>
    cases b with
    | nil => cases h
    | cons w b' =>
      rw [List.nil_append, mediaTagAt] at h
      rw [if_neg (by simp [ws_ne_lbracket (hb w (by simp))])] at h
      cases h
  | cons c s' =>
    rw [List.cons_append, mediaTagAt] at h
    by_cases hc : c = '['
    · rw [if_pos hc] at h
      cases hstrip : stripLitCI mediaLit (s' ++ b) with
      | none => rw [hstrip] at h; cases h
      | some r2 =>
        rw [hstrip, Option.some_bind] at h
        rcases stripLitCI_ws_append mediaLit s' b r2 hb hstrip with ⟨s2, hs2, hr2⟩ | hall
        · subst hr2
          obtain ⟨r3, hr3⟩ := tagAfterLit_ws_append s2 b n r hb h
          exact ⟨n, r3, by rw [mediaTagAt, if_pos hc, hs2, Option.some_bind, hr3]⟩
        · rw [tagAfterLit, dropWhile_all_ws hall,
            show ([] : List Char) = [].takeWhile isDigitCh from rfl,
            wsDigitsWsRBracket_all_ws (b := [])] at h
          · cases h
          · simp
    · rw [if_neg hc] at h; cases h


theorem markerV2At_ws_head {c : Char} (h : isSpaceCh c = true) (l : List Char) :
    markerV2At (c :: l) = none := by
  rw [markerV2At, show markerV2Lit = '(' :: "שלחתי מדיה #".toList from by decide]
  rw [stripLit, if_neg (by simp [ws_ne_lparen h])]
  rfl

theorem mediaTagAt_ws_head {c : Char} (h : isSpaceCh c = true) (l : List Char) :
    mediaTagAt (c :: l) = none := by
  rw [mediaTagAt, if_neg (by simp [ws_ne_lbracket h])]

theorem findTagId_all_ws : ∀ {b : List Char}, (∀ c ∈ b, isSpaceCh c = true) →
    findTagId b = none := by
  intro b
  induction b with
  | nil => intro _; rfl
  | cons w b' ih =>
    intro hb
    rw [findTagId, mediaTagAt_ws_head (hb w (by simp))]
    exact ih fun c hc => hb c (by simp [hc])

theorem findMarkerV2Id_all_ws : ∀ {b : List Char}, (∀ c ∈ b, isSpaceCh c = true) →
    findMarkerV2Id b = none := by
  intro b
  induction b with
  | nil => intro _; rfl
  | cons w b' ih =>
    intro hb
    rw [findMarkerV2Id, markerV2At_ws_head (hb w (by simp))]
    exact ih fun c hc => hb c (by simp [hc])

theorem findTagId_ws_append : ∀ (m b : List Char), (∀ c ∈ b, isSpaceCh c = true) →
    findTagId m = none → findTagId (m ++ b) = none := by
  intro m
  induction m with
  | nil => intro b hb _; exact findTagId_all_ws hb
  | cons c m' ih =>
    intro b hb h
    rw [findTagId] at h
    cases hM : mediaTagAt (c :: m') with
    | some v => rw [hM] at h; cases h
    | none =>
      rw [hM] at h
      rw [List.cons_append, findTagId]
      cases hM2 : mediaTagAt (c :: (m' ++ b)) with
      | some v =>
        obtain ⟨n2, r2, hn⟩ := mediaTagAt_ws_append (c :: m') b v.1 v.2 hb
          (by rw [List.cons_append]; simpa using hM2)
        rw [hn] at hM; cases hM
      | none => exact ih b hb h

theorem findMarkerV2Id_ws_append : ∀ (m b : List Char), (∀ c ∈ b, isSpaceCh c = true) →
    findMarkerV2Id m = none → findMarkerV2Id (m ++ b) = none := by
  intro m
  induction m with
  | nil => intro b hb _; exact findMarkerV2Id_all_ws hb
  | cons c m' ih =>
    intro b hb h
    rw [findMarkerV2Id] at h
    cases hM : markerV2At (c :: m') with
    | some v => rw [hM] at h; cases h
    | none =>
      rw [hM] at h
      rw [List.cons_append, findMarkerV2Id]
      cases hM2 : markerV2At (c :: (m' ++ b)) with
      | some v =>
        obtain ⟨r2, hn⟩ := markerV2At_ws_append (s := c :: m') (b := b) hb
          (by rw [List.cons_append]; simpa using hM2)
        rw [hn] at hM; cases hM
      | none => exact ih b hb h

theorem findTagId_ws_cons {c : Char} (h : isSpaceCh c = true) (l : List Char) :
    findTagId (c :: l) = findTagId l := by
  rw [findTagId, mediaTagAt_ws_head h]

theorem findMarkerV2Id_ws_cons {c : Char} (h : isSpaceCh c = true) (l : List Char) :
    findMarkerV2Id (c :: l) = findMarkerV2Id l := by
  rw [findMarkerV2Id, markerV2At_ws_head h]

/-- Every list splits as all-whitespace margins around its trim. -/
theorem trimL_decomp (l : List Char) : ∃ p s, l = p ++ trimL l ++ s ∧
    (∀ c ∈ p, isSpaceCh c = true) ∧ (∀ c ∈ s, isSpaceCh c = true) := by
  refine ⟨l.takeWhile isSpaceCh, ((l.dropWhile isSpaceCh).reverse.takeWhile isSpaceCh).reverse,
    ?_, ?_, ?_⟩
  · rw [trimL]
    conv_lhs => rw [← List.takeWhile_append_dropWhile (p := isSpaceCh) (l := l)]
    rw [List.append_assoc]
    congr 1
    conv_lhs => rw [← List.reverse_reverse (l.dropWhile isSpaceCh)]
    conv_lhs => rw [← List.takeWhile_append_dropWhile (p := isSpaceCh)
      (l := (l.dropWhile isSpaceCh).reverse)]
    rw [List.reverse_append]
  · exact fun c hc => List.mem_takeWhile_imp hc
  · intro c hc
    rw [List.mem_reverse] at hc
    exact List.mem_takeWhile_imp hc

theorem findTagId_of_trim_none {l : List Char} (h : findTagId (trimL l) = none) :
    findTagId l = none := by
  obtain ⟨p, s, hl, hp, hs⟩ := trimL_decomp l
  rw [hl]
  have h2 : findTagId (trimL l ++ s) = none := findTagId_ws_append _ s hs h
  rw [List.append_assoc]
  clear hl
  induction p with
  | nil => simpa using h2
  | cons c cs ih =>
    rw [List.cons_append, findTagId_ws_cons (hp c (by simp))]
    exact ih fun x hx => hp x (by simp [hx])

theorem findMarkerV2Id_of_trim_none {l : List Char} (h : findMarkerV2Id (trimL l) = none) :
    findMarkerV2Id l = none := by
  obtain ⟨p, s, hl, hp, hs⟩ := trimL_decomp l
  rw [hl]
  have h2 : findMarkerV2Id (trimL l ++ s) = none := findMarkerV2Id_ws_append _ s hs h
  rw [List.append_assoc]
  clear hl
  induction p with
  | nil => simpa using h2
  | cons c cs ih =>
    rw [List.cons_append, findMarkerV2Id_ws_cons (hp c (by simp))]
    exact ih fun x hx => hp x (by simp [hx])

/-- A line accepted as a caption by `parseAIResponse` is never itself a
directive line. -/
theorem captionOk_no_directive {next : List Char} (h : captionOk next = true) :
    lineDirectiveId next = none := by
  rw [captionOk] at h
  simp only [Bool.and_eq_true, Bool.not_eq_true', Option.isNone_iff_eq_none] at h
  obtain ⟨⟨-, htag⟩, hmk⟩ := h
  rw [lineDirectiveId, findTagId_of_trim_none htag]
  exact findMarkerV2Id_of_trim_none hmk


theorem parseLoop_nil (seen : List Nat) : parseLoop seen [] = ([], []) := rfl

theorem parseLoop_single_dup {line : List Char} {id : Nat} {seen : List Nat}
    (h : lineDirectiveId line = some id) (hd : id ∈ seen) :
    parseLoop seen [line] = ([], []) := by
  simp [parseLoop, h, hd]

theorem parseLoop_single_fresh {line : List Char} {id : Nat} {seen : List Nat}
    (h : lineDirectiveId line = some id) (hd : id ∉ seen) :
    parseLoop seen [line] = ([], [⟨id, []⟩]) := by
  simp [parseLoop, h, hd]

theorem parseLoop_single_blank {line : List Char} {seen : List Nat}
    (h : lineDirectiveId line = none) (hb : (trimL line).isEmpty = true) :
    parseLoop seen [line] = ([], []) := by
  simp [parseLoop, h, hb]

theorem parseLoop_single_prose {line : List Char} {seen : List Nat}
    (h : lineDirectiveId line = none) (hb : ¬(trimL line).isEmpty = true) :
    parseLoop seen [line] = ([line], []) := by
  simp [parseLoop, h, hb]

theorem parseLoop_cons_dup {line next : List Char} {rest : List (List Char)}
    {id : Nat} {seen : List Nat}
    (h : lineDirectiveId line = some id) (hd : id ∈ seen) :
    parseLoop seen (line :: next :: rest) = parseLoop seen (next :: rest) := by
  simp [parseLoop, h, hd]

theorem parseLoop_cons_caption {line next : List Char} {rest : List (List Char)}
    {id : Nat} {seen : List Nat}
    (h : lineDirectiveId line = some id) (hd : id ∉ seen) (hc : captionOk next = true) :
    parseLoop seen (line :: next :: rest) =
      ((parseLoop (id :: seen) rest).1,
        ⟨id, trimL next⟩ :: (parseLoop (id :: seen) rest).2) := by
  simp [parseLoop, h, hd, hc]

theorem parseLoop_cons_nocap {line next : List Char} {rest : List (List Char)}
    {id : Nat} {seen : List Nat}
    (h : lineDirectiveId line = some id) (hd : id ∉ seen) (hc : ¬captionOk next = true) :
    parseLoop seen (line :: next :: rest) =
      ((parseLoop (id :: seen) (next :: rest)).1,
        ⟨id, []⟩ :: (parseLoop (id :: seen) (next :: rest)).2) := by
  simp [parseLoop, h, hd, hc]

theorem parseLoop_cons_blank {line next : List Char} {rest : List (List Char)}
    {seen : List Nat}
    (h : lineDirectiveId line = none) (hb : (trimL line).isEmpty = true) :
    parseLoop seen (line :: next :: rest) = parseLoop seen (next :: rest) := by
  simp [parseLoop, h, hb]

theorem parseLoop_cons_prose {line next : List Char} {rest : List (List Char)}
    {seen : List Nat}
    (h : lineDirectiveId line = none) (hb : ¬(trimL line).isEmpty = true) :
    parseLoop seen (line :: next :: rest) =
      (line :: (parseLoop seen (next :: rest)).1, (parseLoop seen (next :: rest)).2) := by
  simp [parseLoop, h, hb]

theorem parseLoop_ids : ∀ (seen : List Nat) (lines : List (List Char)),
    (((parseLoop seen lines).2.map MediaRequest.id).Nodup ∧
     ∀ r ∈ (parseLoop seen lines).2, r.id ∉ seen) ∧
    (∀ id, id ∉ seen →
      (id ∈ (parseLoop seen lines).2.map MediaRequest.id ↔
        ∃ line ∈ lines, lineDirectiveId line = some id)) := by
  intro seen lines
  induction seen, lines using parseLoop.induct with
  | case1 seen => simp [parseLoop_nil]
  | case2 seen line id hline hdup =>
    rw [parseLoop_single_dup hline hdup]
    refine ⟨⟨by simp, by simp⟩, ?_⟩
    intro i hi
    simp only [List.map_nil, List.not_mem_nil, false_iff]
    rintro ⟨l, hl, hid⟩
    have hl2 : l = line := by simpa using hl
    subst hl2
    rw [hline] at hid
    cases hid
    exact absurd hdup hi
  | case3 seen line id hline hdup =>
    rw [parseLoop_single_fresh hline hdup]
    refine ⟨⟨by simp, by simpa using hdup⟩, ?_⟩
    intro i hi
    simp only [List.map_cons, List.map_nil, List.mem_singleton]
    constructor
    · rintro rfl
      exact ⟨line, by simp, hline⟩
    · rintro ⟨l, hl, hid⟩
      have hl2 : l = line := by simpa using hl
      subst hl2
      rw [hline] at hid
      cases hid
      rfl
  | case4 seen line hline hblank =>
    rw [parseLoop_single_blank hline hblank]
    refine ⟨⟨by simp, by simp⟩, ?_⟩
    intro i hi
    simp only [List.map_nil, List.not_mem_nil, false_iff]
    rintro ⟨l, hl, hid⟩
    have hl2 : l = line := by simpa using hl
    subst hl2
    rw [hline] at hid
    cases hid
  | case5 seen line hline hblank =>
    rw [parseLoop_single_prose hline hblank]
    refine ⟨⟨by simp, by simp⟩, ?_⟩
    intro i hi
    simp only [List.map_nil, List.not_mem_nil, false_iff]
    rintro ⟨l, hl, hid⟩
    have hl2 : l = line := by simpa using hl
    subst hl2
    rw [hline] at hid
    cases hid
  | case6 seen line next rest id hline hdup ih =>
    rw [parseLoop_cons_dup hline hdup]
    refine ⟨ih.1, ?_⟩
    intro i hi
    rw [ih.2 i hi]
    constructor
    · rintro ⟨l, hl, h⟩; exact ⟨l, by simp [hl], h⟩
    · rintro ⟨l, hl, h⟩
      rcases List.mem_cons.mp hl with rfl | hl
      · rw [hline] at h; cases h; exact absurd hdup hi
      · exact ⟨l, hl, h⟩
  | case7 seen line next rest id hline hdup hcap ih =>
    have hnext := captionOk_no_directive hcap
    rw [parseLoop_cons_caption hline hdup hcap]
    refine ⟨⟨?_, ?_⟩, ?_⟩
    · simp only [List.map_cons, List.nodup_cons]
      refine ⟨?_, ih.1.1⟩
      intro hmem
      obtain ⟨r, hr, hrid⟩ := List.mem_map.mp hmem
      exact (ih.1.2 r hr) (by simp [hrid])
    · intro r hr
      rcases List.mem_cons.mp hr with rfl | hr
      · exact hdup
      · intro hmem
        exact (ih.1.2 r hr) (by simp [hmem])
    · intro i hi
      by_cases hii : i = id
      · subst hii
        constructor
        · intro _
          exact ⟨line, List.mem_cons_self _ _, hline⟩
        · intro _
          rw [List.map_cons, List.mem_cons]
          left; rfl
      · have hi2 : i ∉ id :: seen := by simp [hii, hi]
        constructor
        · intro hmem
          rw [List.map_cons, List.mem_cons] at hmem
          rcases hmem with h | hmem2
          · exact absurd h hii
          · obtain ⟨l, hl, h⟩ := (ih.2 i hi2).mp hmem2
            exact ⟨l, by simp [hl], h⟩
        · rintro ⟨l, hl, h⟩
          rw [List.map_cons, List.mem_cons]
          rcases List.mem_cons.mp hl with rfl | hl
          · rw [hline] at h; cases h; exact absurd rfl hii
          · rcases List.mem_cons.mp hl with rfl | hl
            · rw [hnext] at h; cases h
            · right; exact (ih.2 i hi2).mpr ⟨l, hl, h⟩
  | case8 seen line next rest id hline hdup hcap ih =>
    rw [parseLoop_cons_nocap hline hdup hcap]
    refine ⟨⟨?_, ?_⟩, ?_⟩
    · simp only [List.map_cons, List.nodup_cons]
      refine ⟨?_, ih.1.1⟩
      intro hmem
      obtain ⟨r, hr, hrid⟩ := List.mem_map.mp hmem
      exact (ih.1.2 r hr) (by simp [hrid])
    · intro r hr
      rcases List.mem_cons.mp hr with rfl | hr
      · exact hdup
      · intro hmem
        exact (ih.1.2 r hr) (by simp [hmem])
    · intro i hi
      by_cases hii : i = id
      · subst hii
        constructor
        · intro _
          exact ⟨line, List.mem_cons_self _ _, hline⟩
        · intro _
          rw [List.map_cons, List.mem_cons]
          left; rfl
      · have hi2 : i ∉ id :: seen := by simp [hii, hi]
        constructor
        · intro hmem
          rw [List.map_cons, List.mem_cons] at hmem
          rcases hmem with h | hmem2
          · exact absurd h hii
          · obtain ⟨l, hl, h⟩ := (ih.2 i hi2).mp hmem2
            exact ⟨l, by simp [hl], h⟩
        · rintro ⟨l, hl, h⟩
          rw [List.map_cons, List.mem_cons]
          rcases List.mem_cons.mp hl with rfl | hl
          · rw [hline] at h; cases h; exact absurd rfl hii
          · right; exact (ih.2 i hi2).mpr ⟨l, hl, h⟩
  | case9 seen line next rest hline hblank ih =>
    rw [parseLoop_cons_blank hline hblank]
    refine ⟨ih.1, ?_⟩
    intro i hi
    rw [ih.2 i hi]
    constructor
    · rintro ⟨l, hl, h⟩; exact ⟨l, by simp [hl], h⟩
    · rintro ⟨l, hl, h⟩
      rcases List.mem_cons.mp hl with rfl | hl
      · rw [hline] at h; cases h
      · exact ⟨l, hl, h⟩
  | case10 seen line next rest hline hblank ih =>
    rw [parseLoop_cons_prose hline hblank]
    refine ⟨ih.1, ?_⟩
    intro i hi
    rw [ih.2 i hi]
    constructor
    · rintro ⟨l, hl, h⟩; exact ⟨l, by simp [hl], h⟩
    · rintro ⟨l, hl, h⟩
      rcases List.mem_cons.mp hl with rfl | hl
      · rw [hline] at h; cases h
      · exact ⟨l, hl, h⟩


theorem parseLoop_no_directive :
    ∀ (seen : List Nat) (lines : List (List Char)),
    (∀ line ∈ lines, lineDirectiveId line = none) →
    parseLoop seen lines = (lines.filter (fun l => !(trimL l).isEmpty), []) := by
  intro seen lines
  induction seen, lines using parseLoop.induct with
  | case1 seen => intro _; simp [parseLoop_nil]
  | case2 seen line id hline hdup =>
    intro h; rw [h line (by simp)] at hline; cases hline
  | case3 seen line id hline hdup =>
    intro h; rw [h line (by simp)] at hline; cases hline
  | case4 seen line hline hblank =>
    intro h
    rw [parseLoop_single_blank hline hblank]
    simp [List.filter, hblank]
  | case5 seen line hline hblank =>
    intro h
    rw [parseLoop_single_prose hline hblank]
    simp only [List.filter]
    rw [show (!(trimL line).isEmpty) = true by simpa using hblank]
  | case6 seen line next rest id hline hdup ih =>
    intro h; rw [h line (by simp)] at hline; cases hline
  | case7 seen line next rest id hline hdup hcap ih =>
    intro h; rw [h line (by simp)] at hline; cases hline
  | case8 seen line next rest id hline hdup hcap ih =>
    intro h; rw [h line (by simp)] at hline; cases hline
  | case9 seen line next rest hline hblank ih =>
    intro h
    rw [parseLoop_cons_blank hline hblank, ih (fun l hl => h l (by simp [hl]))]
    simp [List.filter, hblank]
  | case10 seen line next rest hline hblank ih =>
    intro h
    rw [parseLoop_cons_prose hline hblank, ih (fun l hl => h l (by simp [hl]))]
    simp only [List.filter]
    rw [show (!(trimL line).isEmpty) = true by simpa using hblank]

theorem splitLines_ne_nil (s : List Char) : splitLines s ≠ [] := by
  cases s with
  | nil => simp [splitLines]
  | cons c cs =>
    by_cases hc : c = '\n'
    · simp [splitLines, hc]
    · simp only [splitLines, hc, if_false]
      cases splitLines cs <;> simp

theorem joinLines_splitLines (s : List Char) : joinLines (splitLines s) = s := by
  induction s with
  | nil => rfl
  | cons c cs ih =>
    by_cases hc : c = '\n'
    · subst hc
      simp only [splitLines, if_pos rfl]
      cases h : splitLines cs with
      | nil => exact absurd h (splitLines_ne_nil cs)
      | cons l ls =>
        rw [h] at ih
        simp only [joinLines, joinWith, List.nil_append]
        rw [← joinLines, ih]
    · simp only [splitLines, hc, if_false]
      cases h : splitLines cs with
      | nil => exact absurd h (splitLines_ne_nil cs)
      | cons l ls =>
        rw [h] at ih
        cases ls with
        | nil =>
          simp only [joinLines, joinWith] at ih ⊢
          rw [ih]
        | cons l2 ls2 =>
          simp only [joinLines, joinWith, List.cons_append] at ih ⊢
          rw [← ih]


theorem selectMediaV1_id_not_sent :
    ∀ (sent : List Nat) (cat : List MediaItem) (reqs : List MediaRequest)
      (x : Nat × List Char × MediaItem), x ∈ selectMediaV1 sent cat reqs → x.1 ∉ sent := by
  intro sent cat reqs
  induction reqs with
  | nil => intro x hx; simp [selectMediaV1] at hx
  | cons r rs ih =>
    intro x hx
    by_cases hr : r.id ∈ sent
    · rw [selectMediaV1, if_pos hr] at hx
      exact ih x hx
    · rw [selectMediaV1, if_neg hr] at hx
      cases hget : getMediaById cat (r.id : Int) with
      | none => rw [hget] at hx; exact ih x hx
      | some a =>
        rw [hget] at hx
        rcases List.mem_cons.mp hx with rfl | hx
        · exact hr
        · exact ih x hx

theorem sendMediaItems_dispatch_mem :
    ∀ (cat : List MediaItem) (reqs : List MediaRequest) (id : Nat) (u : List Char)
      (ty : MType) (cap : Option (List Char)),
      Event.dispatchMedia id u ty cap ∈ (sendMediaItems cat reqs).1 →
      id ∈ (sendMediaItems cat reqs).2 ∧ ∃ r ∈ reqs, r.id = id := by
  intro cat reqs
  induction reqs with
  | nil => intro id u ty cap h; simp [sendMediaItems] at h
  | cons r rs ih =>
    intro id u ty cap h
    rw [sendMediaItems] at h ⊢
    cases hget : getMediaById cat (r.id : Int) with
    | none =>
      rw [hget] at h
      obtain ⟨h1, r2, hr2, hid⟩ := ih id u ty cap h
      exact ⟨h1, r2, by simp [hr2], hid⟩
    | some a =>
      rw [hget] at h
      rcases List.mem_cons.mp h with heq | h
      · injection heq with e1 e2 e3 e4
        subst e1
        exact ⟨by simp, r, by simp, rfl⟩
      · obtain ⟨h1, r2, hr2, hid⟩ := ih id u ty cap h
        exact ⟨by simp [h1], r2, by simp [hr2], hid⟩

theorem sendMediaItems_dispatched_ids :
    ∀ (cat : List MediaItem) (reqs : List MediaRequest),
      (sendMediaItems cat reqs).1.filterMap mediaDispatchId = (sendMediaItems cat reqs).2 := by
  intro cat reqs
  induction reqs with
  | nil => simp [sendMediaItems]
  | cons r rs ih =>
    rw [sendMediaItems]
    cases hget : getMediaById cat (r.id : Int) with
    | none => exact ih
    | some a => simp [List.filterMap, mediaDispatchId, ih]

theorem dispatch_not_mem_ite_append {c : Prop} [Decidable c] {m : ChatMessage}
    {id : Nat} {u : List Char} {ty : MType} {cap : Option (List Char)} :
    Event.dispatchMedia id u ty cap ∉
      (if c then ([] : List Event) else [Event.appendTurn m]) := by
  intro h
  split at h <;> simp at h

theorem flushV1_media_events {history : List ChatMessage} {resp : List Char}
    {batch : List NormalizedMessage} {cat : List MediaItem} {vE vO : Bool} {now : Nat}
    {id : Nat} {u : List Char} {ty : MType} {cap : Option (List Char)}
    (h : Event.dispatchMedia id u ty cap ∈
      flushConversationV1 history (some resp) batch cat vE vO now) :
    ∃ x ∈ selectMediaV1 (getSentMediaIdsFromHistory history) cat
        (parseFlushV1 (splitLines resp)).2, x.1 = id := by
  simp only [flushConversationV1, List.mem_append] at h
  rcases h with ((((h | h) | h) | h) | h) | h
  · obtain ⟨m, _, heq⟩ := List.mem_map.mp h
    exact absurd heq (by simp)
  · split at h <;> simp at h
  · obtain ⟨x, hx, heq⟩ := List.mem_map.mp h
    injection heq with e1 e2 e3 e4
    exact ⟨x, hx, e1⟩
  · split at h <;> simp at h
  · split at h <;> simp at h
  · split at h <;> simp at h


theorem flushV2_media_events {history : List ChatMessage} {resp : List Char}
    {batch : List NormalizedMessage} {cat : List MediaItem} {vE vO : Bool} {now : Nat}
    {id : Nat} {u : List Char} {ty : MType} {cap : Option (List Char)}
    (h : Event.dispatchMedia id u ty cap ∈
      flushConversationV2 history (some resp) batch cat vE vO now) :
    ∃ r ∈ (parseAIResponse resp).mediaRequests.filter
        (fun r => r.id ∉ getSentMediaIds history), r.id = id := by
  simp only [flushConversationV2, List.mem_append] at h
  rcases h with (((h | h) | h) | h) | h
  · obtain ⟨m, _, heq⟩ := List.mem_map.mp h
    exact absurd heq (by simp)
  · obtain ⟨-, r, hr, hid⟩ := sendMediaItems_dispatch_mem _ _ _ _ _ _ h
    exact ⟨r, hr, hid⟩
  · simp at h
  · split at h <;> simp at h
  · split at h <;> simp at h

/-- In either variant of the flush, a media id already recorded as a
sent-media marker in the pre-flush log is never dispatched. -/
theorem flushV1_no_dispatch_of_marked {history : List ChatMessage}
    {response : Option (List Char)} {batch : List NormalizedMessage}
    {cat : List MediaItem} {vE vO : Bool} {now : Nat} {id : Nat}
    (hmark : id ∈ getSentMediaIdsFromHistory history) (u : List Char) (ty : MType)
    (cap : Option (List Char)) :
    Event.dispatchMedia id u ty cap ∉ flushConversationV1 history response batch cat vE vO now := by
  intro h
  cases response with
  | none => simp [flushConversationV1] at h
  | some resp =>
    obtain ⟨x, hx, hid⟩ := flushV1_media_events h
    exact selectMediaV1_id_not_sent _ _ _ x hx (hid ▸ hmark)

theorem flushV2_no_dispatch_of_marked {history : List ChatMessage}
    {response : Option (List Char)} {batch : List NormalizedMessage}
    {cat : List MediaItem} {vE vO : Bool} {now : Nat} {id : Nat}
    (hmark : id ∈ getSentMediaIds history) (u : List Char) (ty : MType)
    (cap : Option (List Char)) :
    Event.dispatchMedia id u ty cap ∉ flushConversationV2 history response batch cat vE vO now := by
  intro h
  cases response with
  | none => simp [flushConversationV2] at h
  | some resp =>
    obtain ⟨r, hr, hid⟩ := flushV2_media_events h
    have := List.of_mem_filter hr
    rw [hid] at this
    simp at this
    exact this hmark


theorem historyContentV1_markers (resp : List Char) (sentIds : List Nat) :
    ∀ id ∈ sentIds, id ∈ scanIds markerV1At (historyContentV1 resp sentIds) := by
  intro id hid
  rw [historyContentV1, joinLines]
  exact scanIds_join_markers markerV1At renderMarkerV1 markerV1At_render
    (fun i => by simp [renderMarkerV1, markerV1Lit]) '\n' sentIds _ id hid

theorem buildHistoryContent_markers (resp : List Char) (sentIds : List Nat) :
    ∀ id ∈ sentIds, id ∈ scanIds markerV2At (buildHistoryContent resp sentIds) := by
  intro id hid
  rw [buildHistoryContent]
  have hne : ¬sentIds.isEmpty = true := by
    cases sentIds with
    | nil => simp at hid
    | cons a as => simp
  rw [if_neg hne]
  exact scanIds_join_markers markerV2At renderMarkerV2 markerV2At_render
    (fun i => by simp [renderMarkerV2, markerV2Lit]) ' ' sentIds _ id hid


theorem mediaDispatchId_none_of_mem_ite {c : Prop} [Decidable c] {x : Event}
    (hx : mediaDispatchId x = none) :
    ∀ e ∈ (if c then [x] else []), mediaDispatchId e = none := by
  intro e he
  split at he
  · have he2 : e = x := by simpa using he
    subst he2; exact hx
  · simp at he

/-- Sufficient condition for the persist-before-dispatch ordering: either the
trace dispatches no media at all, or it is an all-append block, then the
marking assistant append, then a tail whose media dispatches all carry
recorded ids. -/
theorem markersPersistedBefore_intro (markersOf : List Char → List Nat)
    (tr : List Event)
    (h : (∀ e ∈ tr, mediaDispatchId e = none) ∨
      ∃ P m S, tr = P ++ Event.appendTurn m :: S ∧
        (∀ e ∈ P, mediaDispatchId e = none) ∧ m.role = Role.assistant ∧
        ∀ e ∈ S, ∀ id u ty cap, e = Event.dispatchMedia id u ty cap →
          id ∈ markersOf m.content) :
    markersPersistedBefore markersOf tr := by
  rcases h with hall | ⟨P, m, S, htr, hP, hrole, hS⟩
  · intro j id u ty cap hj
    have := hall _ (List.getElem?_mem hj)
    simp [mediaDispatchId] at this
  · subst htr
    intro j id u ty cap hj
    have hjP : ¬ j < P.length := by
      intro hlt
      rw [List.getElem?_append_left hlt] at hj
      have := hP _ (List.getElem?_mem hj)
      simp [mediaDispatchId] at this
    have hjP2 : P.length ≤ j := Nat.le_of_not_lt hjP
    rw [List.getElem?_append_right hjP2] at hj
    cases hk : j - P.length with
    | zero => rw [hk] at hj; simp at hj
    | succ k2 =>
      rw [hk] at hj
      simp only [List.getElem?_cons_succ] at hj
      have hidm := hS _ (List.getElem?_mem hj) id u ty cap rfl
      refine ⟨P.length, m, by omega, ?_, hrole, hidm⟩
      rw [List.getElem?_append_right (Nat.le_refl _)]
      simp

theorem flushV1_persists_markers_before_dispatch
    (history : List ChatMessage) (response : Option (List Char))
    (batch : List NormalizedMessage) (cat : List MediaItem)
    (vE vO : Bool) (now : Nat) :
    markersPersistedBefore (scanIds markerV1At)
      (flushConversationV1 history response batch cat vE vO now) := by
  cases response with
  | none =>
    intro j id u ty cap hj
    cases j with
    | zero => simp [flushConversationV1] at hj
    | succ n => simp [flushConversationV1] at hj
  | some resp =>
    simp only [flushConversationV1]
    set S := selectMediaV1 (getSentMediaIdsFromHistory history) cat
      (parseFlushV1 (splitLines resp)).2 with hSdef
    apply markersPersistedBefore_intro
    by_cases hemp : (S.map fun x => x.1).isEmpty = true
    · left
      have hSnil : S = [] := by
        cases hc : S
        · rfl
        · rw [hc] at hemp; simp at hemp
      rw [if_pos hemp, if_pos hemp, hSnil]
      intro e he
      simp only [List.map_nil, List.append_nil, List.nil_append, List.mem_append] at he
      rcases he with ((h | h) | h) | h
      · obtain ⟨m, -, rfl⟩ := List.mem_map.mp h
        rfl
      · have : e = Event.appendTurn ⟨Role.assistant, trimL (removeTags resp), now⟩ := by
          simpa using h
        subst this; rfl
      · refine mediaDispatchId_none_of_mem_ite ?_ e h
        rfl
      · refine mediaDispatchId_none_of_mem_ite ?_ e h
        rfl
    · right
      rw [if_neg hemp, if_neg hemp]
      set T := (if (parseFlushV1 (splitLines resp)).2.isEmpty = true then resp
        else trimL (joinLines (parseFlushV1 (splitLines resp)).1)) with hTdef
      refine ⟨batch.map fun mm =>
          Event.appendTurn ⟨Role.user, formatMessageForHistory mm, mm.timestamp⟩,
        ⟨Role.assistant, historyContentV1 resp (S.map fun x => x.1), now⟩,
        (S.map fun x => Event.dispatchMedia x.1 x.2.2.url x.2.2.mtype
          (if x.2.1.isEmpty = true then none else some x.2.1)) ++
          ((if (vE && S.length == 0 && vO) = true then [Event.dispatchVoice T] else []) ++
           (if (!(vE && S.length == 0 && vO) && !T.isEmpty) = true
            then [Event.dispatchText T] else [])),
        ?_, ?_, rfl, ?_⟩
      · simp [List.append_assoc]
      · intro e he
        obtain ⟨mm, -, rfl⟩ := List.mem_map.mp he
        rfl
      · intro e he id u ty cap heq
        subst heq
        rcases List.mem_append.mp he with h | h
        · obtain ⟨x, hx, hxe⟩ := List.mem_map.mp h
          injection hxe with e1 e2 e3 e4
          subst e1
          exact historyContentV1_markers resp _ x.1 (List.mem_map.mpr ⟨x, hx, rfl⟩)
        · rcases List.mem_append.mp h with h | h
          · have h2 : mediaDispatchId (Event.dispatchMedia id u ty cap) = none := by
              refine mediaDispatchId_none_of_mem_ite ?_ _ h
              rfl
            simp [mediaDispatchId] at h2
          · have h2 : mediaDispatchId (Event.dispatchMedia id u ty cap) = none := by
              refine mediaDispatchId_none_of_mem_ite ?_ _ h
              rfl
            simp [mediaDispatchId] at h2


theorem filterMap_mediaDispatchId_ite {c : Prop} [Decidable c] {x : Event}
    (hx : mediaDispatchId x = none) :
    (if c then [x] else []).filterMap mediaDispatchId = [] := by
  split <;> simp [List.filterMap, hx]

theorem dispatchedIds_flushV2 (history : List ChatMessage) (resp : List Char)
    (batch : List NormalizedMessage) (cat : List MediaItem) (vE vO : Bool) (now : Nat) :
    dispatchedIds (flushConversationV2 history (some resp) batch cat vE vO now) =
      (sendMediaItems cat ((parseAIResponse resp).mediaRequests.filter
        (fun r => r.id ∉ getSentMediaIds history))).2 := by
  simp only [flushConversationV2, dispatchedIds, List.filterMap_append]
  have hU : (batch.map fun mm =>
      Event.appendTurn ⟨Role.user, formatMessageForHistory mm, mm.timestamp⟩).filterMap
        mediaDispatchId = [] := by
    induction batch with
    | nil => rfl
    | cons b bs ih => simp [List.filterMap, mediaDispatchId, ih]
  rw [hU, sendMediaItems_dispatched_ids,
    filterMap_mediaDispatchId_ite (x := Event.dispatchVoice _) rfl,
    filterMap_mediaDispatchId_ite (x := Event.dispatchText _) rfl]
  simp [List.filterMap, mediaDispatchId]

/-- The second flush variant always appends an assistant turn that records a
marker for every media id dispatched in the same flush (the append follows
the dispatches). -/
theorem flushV2_appends_marked_turn (history : List ChatMessage) (resp : List Char)
    (batch : List NormalizedMessage) (cat : List MediaItem) (vE vO : Bool) (now : Nat) :
    ∃ m : ChatMessage,
      Event.appendTurn m ∈ flushConversationV2 history (some resp) batch cat vE vO now ∧
      m.role = Role.assistant ∧
      ∀ id ∈ dispatchedIds (flushConversationV2 history (some resp) batch cat vE vO now),
        id ∈ scanIds markerV2At m.content := by
  refine ⟨⟨Role.assistant, buildHistoryContent resp
      (sendMediaItems cat ((parseAIResponse resp).mediaRequests.filter
        (fun r => r.id ∉ getSentMediaIds history))).2, now⟩, ?_, rfl, ?_⟩
  · simp [flushConversationV2]
  · intro id hid
    rw [dispatchedIds_flushV2] at hid
    exact buildHistoryContent_markers resp _ id hid


theorem sendTextMessage_delivered {t : Nat → SendOutcome} {rc : Nat}
    (h : t rc = SendOutcome.delivered) : sendTextMessage t rc = (true, []) := by
  rw [sendTextMessage, h]

theorem sendTextMessage_apiRejected {t : Nat → SendOutcome} {rc : Nat}
    (h : t rc = SendOutcome.apiRejected) : sendTextMessage t rc = (false, []) := by
  rw [sendTextMessage, h]

theorem sendTextMessage_transportError {t : Nat → SendOutcome} {rc : Nat}
    (h : t rc = SendOutcome.transportError) : sendTextMessage t rc = (false, []) := by
  rw [sendTextMessage, h]

theorem sendTextMessage_rateLimited_retry {t : Nat → SendOutcome} {rc : Nat}
    (h : t rc = SendOutcome.rateLimited) (hrc : rc < MAX_RETRIES) :
    sendTextMessage t rc =
      ((sendTextMessage t (rc + 1)).1,
        RETRY_DELAY_MS * (rc + 1) :: (sendTextMessage t (rc + 1)).2) := by
  rw [sendTextMessage, h]
  simp [hrc]

theorem sendTextMessage_rateLimited_exhausted {t : Nat → SendOutcome} {rc : Nat}
    (h : t rc = SendOutcome.rateLimited) (hrc : ¬ rc < MAX_RETRIES) :
    sendTextMessage t rc = (false, []) := by
  rw [sendTextMessage, h]
  simp [hrc]


theorem sendTextMessage_spec : ∀ (n rc : Nat) (t : Nat → SendOutcome),
    MAX_RETRIES - rc ≤ n → rc ≤ MAX_RETRIES →
    (sendTextMessage t rc).2.length ≤ MAX_RETRIES - rc ∧
    (sendTextMessage t rc).2 = (List.range (sendTextMessage t rc).2.length).map
      (fun i => RETRY_DELAY_MS * (rc + i + 1)) ∧
    ((∀ j, rc ≤ j → j ≤ MAX_RETRIES → t j = SendOutcome.rateLimited) →
      sendTextMessage t rc = (false, (List.range (MAX_RETRIES - rc)).map
        (fun i => RETRY_DELAY_MS * (rc + i + 1)))) ∧
    ((sendTextMessage t rc).1 = true ↔ ∃ k, rc ≤ k ∧ k ≤ MAX_RETRIES ∧
      t k = SendOutcome.delivered ∧
      ∀ j, rc ≤ j → j < k → t j = SendOutcome.rateLimited) := by
  have hM : MAX_RETRIES = 3 := rfl
  intro n
  induction n with
  | zero =>
    intro rc t hn hrc
    have hrc3 : rc = 3 := by omega
    subst hrc3
    cases h0 : t 3 with
    | delivered =>
      rw [sendTextMessage_delivered h0]
      refine ⟨by simp, by simp, ?_, ?_⟩
      · intro hall
        rw [hall 3 (by omega) (by omega)] at h0
        cases h0
      · simp only [true_iff]
        exact ⟨3, by omega, by omega, h0, fun j h1 h2 => by omega⟩
    | apiRejected =>
      rw [sendTextMessage_apiRejected h0]
      refine ⟨by simp, by simp, ?_, ?_⟩
      · intro hall
        rw [hall 3 (by omega) (by omega)] at h0
        cases h0
      · simp only [Bool.false_eq_true, false_iff]
        rintro ⟨k, h1, h2, h3, -⟩
        have hk3 : k = 3 := by omega
        subst hk3
        rw [h3] at h0
        cases h0
    | rateLimited =>
      rw [sendTextMessage_rateLimited_exhausted h0 (by omega)]
      refine ⟨by simp, by simp, ?_, ?_⟩
      · intro _
        rw [hM]
        simp
      · simp only [Bool.false_eq_true, false_iff]
        rintro ⟨k, h1, h2, h3, -⟩
        have hk3 : k = 3 := by omega
        subst hk3
        rw [h3] at h0
        cases h0
    | transportError =>
      rw [sendTextMessage_transportError h0]
      refine ⟨by simp, by simp, ?_, ?_⟩
      · intro hall
        rw [hall 3 (by omega) (by omega)] at h0
        cases h0
      · simp only [Bool.false_eq_true, false_iff]
        rintro ⟨k, h1, h2, h3, -⟩
        have hk3 : k = 3 := by omega
        subst hk3
        rw [h3] at h0
        cases h0
  | succ n ih =>
    intro rc t hn hrc
    cases h0 : t rc with
    | delivered =>
      rw [sendTextMessage_delivered h0]
      refine ⟨by simp, by simp, ?_, ?_⟩
      · intro hall
        rw [hall rc (by omega) (by omega)] at h0
        cases h0
      · simp only [true_iff]
        exact ⟨rc, by omega, by omega, h0, fun j h1 h2 => by omega⟩
    | apiRejected =>
      rw [sendTextMessage_apiRejected h0]
      refine ⟨by simp, by simp, ?_, ?_⟩
      · intro hall
        rw [hall rc (by omega) (by omega)] at h0
        cases h0
      · simp only [Bool.false_eq_true, false_iff]
        rintro ⟨k, h1, h2, h3, h4⟩
        rcases Nat.eq_or_lt_of_le h1 with rfl | hlt
        · rw [h3] at h0; cases h0
        · rw [h4 rc (by omega) hlt] at h0; cases h0
    | transportError =>
      rw [sendTextMessage_transportError h0]
      refine ⟨by simp, by simp, ?_, ?_⟩
      · intro hall
        rw [hall rc (by omega) (by omega)] at h0
        cases h0
      · simp only [Bool.false_eq_true, false_iff]
        rintro ⟨k, h1, h2, h3, h4⟩
        rcases Nat.eq_or_lt_of_le h1 with rfl | hlt
        · rw [h3] at h0; cases h0
        · rw [h4 rc (by omega) hlt] at h0; cases h0
    | rateLimited =>
      by_cases hlt : rc < MAX_RETRIES
      · rw [sendTextMessage_rateLimited_retry h0 hlt]
        obtain ⟨ih1, ih2, ih3, ih4⟩ := ih (rc + 1) t (by omega) (by omega)
        have hfun : (fun i => RETRY_DELAY_MS * (rc + 1 + i + 1)) =
            (fun i => RETRY_DELAY_MS * (rc + i + 1)) ∘ Nat.succ := by
          funext i
          simp only [Function.comp, Nat.succ_eq_add_one]
          ring
        refine ⟨by simpa using (by omega : (sendTextMessage t (rc + 1)).2.length + 1 ≤
          MAX_RETRIES - rc), ?_, ?_, ?_⟩
        · simp only [List.length_cons]
          rw [List.range_succ_eq_map, List.map_cons, List.map_map]
          have h01 : RETRY_DELAY_MS * (rc + 0 + 1) = RETRY_DELAY_MS * (rc + 1) := by ring_nf
          rw [h01]
          rw [show (sendTextMessage t (rc + 1)).2 =
            List.map ((fun i => RETRY_DELAY_MS * (rc + i + 1)) ∘ Nat.succ)
              (List.range (sendTextMessage t (rc + 1)).2.length) from by rw [← hfun]; exact ih2]
          rw [List.length_map, List.length_range]
        · intro hall
          have hrec := ih3 (fun j hj1 hj2 => hall j (by omega) hj2)
          rw [hrec]
          have hlen : MAX_RETRIES - rc = (MAX_RETRIES - (rc + 1)) + 1 := by
            simp only [hM] at hlt ⊢
            omega
          rw [hlen, List.range_succ_eq_map, List.map_cons, List.map_map]
          have h02 : RETRY_DELAY_MS * (rc + 0 + 1) = RETRY_DELAY_MS * (rc + 1) := by ring_nf
          rw [h02, ← hfun]
        · simp only []
          rw [ih4]
          constructor
          · rintro ⟨k, h1, h2, h3, h4⟩
            exact ⟨k, by omega, h2, h3, fun j hj1 hj2 => by
              rcases Nat.eq_or_lt_of_le hj1 with rfl | hj3
              · exact h0
              · exact h4 j (by omega) hj2⟩
          · rintro ⟨k, h1, h2, h3, h4⟩
            have hkrc : rc < k := by
              rcases Nat.eq_or_lt_of_le h1 with rfl | hj3
              · rw [h3] at h0; cases h0
              · exact hj3
            exact ⟨k, by omega, h2, h3, fun j hj1 hj2 => h4 j (by omega) hj2⟩
      · rw [sendTextMessage_rateLimited_exhausted h0 hlt]
        have hrc3 : rc = 3 := by omega
        subst hrc3
        refine ⟨by simp, by simp, ?_, ?_⟩
        · intro _
          rw [hM]
          simp
        · simp only [Bool.false_eq_true, false_iff]
          rintro ⟨k, h1, h2, h3, -⟩
          have hk3 : k = 3 := by omega
          subst hk3
          rw [h3] at h0
          cases h0


theorem sendMedia_eq_sendTextMessage : ∀ (t : Nat → SendOutcome) (rc : Nat),
    sendMedia t rc = sendTextMessage t rc := by
  have key : ∀ (n rc : Nat) (t : Nat → SendOutcome), MAX_RETRIES - rc ≤ n →
      sendMedia t rc = sendTextMessage t rc := by
    intro n
    induction n with
    | zero =>
      intro rc t hn
      have hge : ¬ rc < MAX_RETRIES := by
        have hM : MAX_RETRIES = 3 := rfl
        simp only [hM] at hn ⊢
        omega
      rw [sendMedia, sendTextMessage]
      cases ht : t rc <;> simp [hge]
    | succ n ih =>
      intro rc t hn
      rw [sendMedia, sendTextMessage]
      cases ht : t rc <;> simp only []
      by_cases hlt : rc < MAX_RETRIES
      · simp only [if_pos hlt, ih (rc + 1) t (by
          have hM : MAX_RETRIES = 3 := rfl
          simp only [hM] at hn hlt ⊢
          omega)]
      · simp [hlt]
  intro t rc
  exact key (MAX_RETRIES - rc) rc t (Nat.le_refl _)

theorem sendVoiceMessage_eq_sendTextMessage : ∀ (t : Nat → SendOutcome) (rc : Nat),
    sendVoiceMessage t rc = sendTextMessage t rc := by
  have key : ∀ (n rc : Nat) (t : Nat → SendOutcome), MAX_RETRIES - rc ≤ n →
      sendVoiceMessage t rc = sendTextMessage t rc := by
    intro n
    induction n with
    | zero =>
      intro rc t hn
      have hge : ¬ rc < MAX_RETRIES := by
        have hM : MAX_RETRIES = 3 := rfl
        simp only [hM] at hn ⊢
        omega
      rw [sendVoiceMessage, sendTextMessage]
      cases ht : t rc <;> simp [hge]
    | succ n ih =>
      intro rc t hn
      rw [sendVoiceMessage, sendTextMessage]
      cases ht : t rc <;> simp only []
      by_cases hlt : rc < MAX_RETRIES
      · simp only [if_pos hlt, ih (rc + 1) t (by
          have hM : MAX_RETRIES = 3 := rfl
          simp only [hM] at hn hlt ⊢
          omega)]
      · simp [hlt]
  intro t rc
  exact key (MAX_RETRIES - rc) rc t (Nat.le_refl _)


/-- Claim C1 fails as stated: in the second `flushConversation` variant the
physical media dispatch happens before the agent turn carrying the sent-media
markers is appended.  Concretely, with an empty log, completion response
`"[MEDIA: 1]"` and a one-item catalog, the flush's first event is the media
dispatch, so no marker-carrying append precedes it. -/
theorem C1_counterexample :
    ¬ markersPersistedBefore (scanIds markerV2At)
      (flushConversationV2 [] (some "[MEDIA: 1]".toList) []
        [⟨"u".toList, MType.image, "d".toList⟩] false false 0) := by
  intro h
  obtain ⟨i, m, hi, -⟩ := h 0 1 "u".toList MType.image none (by decide)
  omega

/-- Claim C1, amended: in the first `flushConversation` variant, every media
dispatch of a flush is preceded by the append of an assistant turn whose
content carries the first variant's sent-media marker for the dispatched id;
in the second variant the marking assistant turn is instead appended after
the dispatches, still within the same flush and recording every dispatched
id. -/
theorem C1_prop :
    (∀ (history : List ChatMessage) (response : Option (List Char))
      (batch : List NormalizedMessage) (catalog : List MediaItem)
      (vE vO : Bool) (now : Nat),
      markersPersistedBefore (scanIds markerV1At)
        (flushConversationV1 history response batch catalog vE vO now)) ∧
    (∀ (history : List ChatMessage) (resp : List Char)
      (batch : List NormalizedMessage) (catalog : List MediaItem)
      (vE vO : Bool) (now : Nat),
      ∃ m : ChatMessage,
        Event.appendTurn m ∈ flushConversationV2 history (some resp) batch catalog vE vO now ∧
        m.role = Role.assistant ∧
        ∀ id ∈ dispatchedIds (flushConversationV2 history (some resp) batch catalog vE vO now),
          id ∈ scanIds markerV2At m.content) :=
  ⟨flushV1_persists_markers_before_dispatch, flushV2_appends_marked_turn⟩

/-- Witness for C1's amended theorem at a concrete flush of the first variant:
the dispatch of media id 1 at trace position 1 is preceded by an assistant
append carrying its marker. -/
theorem C1_prop_witness :
    ∃ (i : Nat) (m : ChatMessage), i < 1 ∧
      (flushConversationV1 [] (some "[MEDIA: 1]".toList) []
        [⟨"u".toList, MType.image, "d".toList⟩] false false 0)[i]? =
        some (Event.appendTurn m) ∧
      m.role = Role.assistant ∧ 1 ∈ scanIds markerV1At m.content :=
  C1_prop.1 [] (some "[MEDIA: 1]".toList) []
    [⟨"u".toList, MType.image, "d".toList⟩] false false 0
    1 1 "u".toList MType.image none (by decide)

/-- Claim C2: a media id that already appears as a sent-media marker in an
assistant turn of the log read at the start of the flush is never dispatched
during that flush, in either variant. -/
theorem C2_prop :
    ∀ (history : List ChatMessage) (response : Option (List Char))
      (batch : List NormalizedMessage) (catalog : List MediaItem)
      (vE vO : Bool) (now : Nat) (id : Nat) (u : List Char) (ty : MType)
      (cap : Option (List Char)),
      (id ∈ getSentMediaIdsFromHistory history →
        Event.dispatchMedia id u ty cap ∉
          flushConversationV1 history response batch catalog vE vO now) ∧
      (id ∈ getSentMediaIds history →
        Event.dispatchMedia id u ty cap ∉
          flushConversationV2 history response batch catalog vE vO now) :=
  fun _ _ _ _ _ _ _ _ u ty cap =>
    ⟨fun h => flushV1_no_dispatch_of_marked h u ty cap,
     fun h => flushV2_no_dispatch_of_marked h u ty cap⟩

/-- Witness for C2: a log whose assistant turn records both variants' markers
for id 3; replaying `[MEDIA: 3]` dispatches nothing in either variant. -/
theorem C2_prop_witness :
    Event.dispatchMedia 3 "u".toList MType.image none ∉
      flushConversationV1 [⟨Role.assistant,
        "[שלחתי מדיה: #3](שלחתי מדיה #3)".toList, 0⟩]
        (some "[MEDIA: 3]".toList) [] [⟨"u".toList, MType.image, "d".toList⟩]
        false false 0 ∧
    Event.dispatchMedia 3 "u".toList MType.image none ∉
      flushConversationV2 [⟨Role.assistant,
        "[שלחתי מדיה: #3](שלחתי מדיה #3)".toList, 0⟩]
        (some "[MEDIA: 3]".toList) [] [⟨"u".toList, MType.image, "d".toList⟩]
        false false 0 :=
  ⟨(C2_prop _ _ _ _ _ _ _ 3 _ _ _).1 (by decide),
   (C2_prop _ _ _ _ _ _ _ 3 _ _ _).2 (by decide)⟩


/-- Claim C3: once the log has reached the configured cap, every append
(`addToHistory`, all storage paths) leaves the stored log at exactly the cap
length, holding the most recently appended turns as a suffix of the pushed
log, in unchanged order; the second variant's `slice(-cap)` path agrees. -/
theorem C3_prop :
    ∀ (cap : Nat) (history : List ChatMessage) (message : ChatMessage),
      1 ≤ cap → cap ≤ history.length →
      addToHistory cap history message =
        (history ++ [message]).drop (history.length + 1 - cap) ∧
      (addToHistory cap history message).length = cap ∧
      List.IsSuffix (addToHistory cap history message) (history ++ [message]) ∧
      addToHistorySliceNeg cap history message = addToHistory cap history message := by
  intro cap history message h1 h2
  have hlen : (history ++ [message]).length = history.length + 1 := by simp
  have hcond : cap < (history ++ [message]).length := by omega
  refine ⟨?_, ?_, ?_, ?_⟩
  · rw [addToHistory, if_pos hcond, hlen]
  · rw [addToHistory, if_pos hcond]
    rw [List.length_drop, hlen]
    omega
  · rw [addToHistory, if_pos hcond]
    exact List.drop_suffix _ _
  · rw [addToHistorySliceNeg, jsSliceNeg, if_pos hcond, if_neg (by omega), addToHistory,
      if_pos hcond]

/-- Witness for C3 at a two-turn log with cap 2: the append keeps exactly the
last two turns. -/
theorem C3_prop_witness :
    addToHistory 2 [⟨Role.user, "a".toList, 0⟩, ⟨Role.assistant, "b".toList, 1⟩]
        ⟨Role.user, "c".toList, 2⟩ =
      (([⟨Role.user, "a".toList, 0⟩, ⟨Role.assistant, "b".toList, 1⟩] :
        List ChatMessage) ++ [(⟨Role.user, "c".toList, 2⟩ : ChatMessage)]).drop 1 ∧
    (addToHistory 2 [⟨Role.user, "a".toList, 0⟩, ⟨Role.assistant, "b".toList, 1⟩]
        ⟨Role.user, "c".toList, 2⟩).length = 2 ∧
    List.IsSuffix (addToHistory 2 [⟨Role.user, "a".toList, 0⟩,
        ⟨Role.assistant, "b".toList, 1⟩] ⟨Role.user, "c".toList, 2⟩)
      (([⟨Role.user, "a".toList, 0⟩, ⟨Role.assistant, "b".toList, 1⟩] :
        List ChatMessage) ++ [(⟨Role.user, "c".toList, 2⟩ : ChatMessage)]) ∧
    addToHistorySliceNeg 2 [⟨Role.user, "a".toList, 0⟩, ⟨Role.assistant, "b".toList, 1⟩]
        ⟨Role.user, "c".toList, 2⟩ =
      addToHistory 2 [⟨Role.user, "a".toList, 0⟩, ⟨Role.assistant, "b".toList, 1⟩]
        ⟨Role.user, "c".toList, 2⟩ :=
  C3_prop 2 [⟨Role.user, "a".toList, 0⟩, ⟨Role.assistant, "b".toList, 1⟩]
    ⟨Role.user, "c".toList, 2⟩ (by decide) (by decide)

/-- Claim C4: when the completion service returns `null`, both flush variants
dispatch exactly their fixed apology text and append nothing, leaving the
stored log unchanged. -/
theorem C4_prop :
    ∀ (history : List ChatMessage) (batch : List NormalizedMessage)
      (catalog : List MediaItem) (vE vO : Bool) (now : Nat) (cap : Nat)
      (log : List ChatMessage),
      flushConversationV1 history none batch catalog vE vO now =
        [Event.dispatchText apologyV1] ∧
      flushConversationV2 history none batch catalog vE vO now =
        [Event.dispatchText apologyV2] ∧
      finalLog cap log (flushConversationV1 history none batch catalog vE vO now) = log ∧
      finalLog cap log (flushConversationV2 history none batch catalog vE vO now) = log :=
  fun _ _ _ _ _ _ _ _ => ⟨rfl, rfl, rfl, rfl⟩


/-- Claim C5: the directive parser maps
`"hello\n[MEDIA: 3]\ncaption here\nworld"` to prose `"hello\nworld"` with the
single directive `{ref 3, caption "caption here"}` (in both variants), and in
general a fresh directive line followed by a non-empty non-directive line
consumes that line as the directive's caption, excluding it from the prose. -/
theorem C5_prop :
    parseAIResponse "hello\n[MEDIA: 3]\ncaption here\nworld".toList =
      ⟨"hello\nworld".toList, [⟨3, "caption here".toList⟩]⟩ ∧
    parseFlushV1 (splitLines "hello\n[MEDIA: 3]\ncaption here\nworld".toList) =
      (["hello".toList, "world".toList], [⟨3, "caption here".toList⟩]) ∧
    ∀ (seen : List Nat) (line next : List Char) (rest : List (List Char)) (id : Nat),
      lineDirectiveId line = some id → id ∉ seen → captionOk next = true →
      parseLoop seen (line :: next :: rest) =
        ((parseLoop (id :: seen) rest).1,
          ⟨id, trimL next⟩ :: (parseLoop (id :: seen) rest).2) :=
  ⟨by decide, by decide,
   fun _ _ _ _ _ h hd hc => parseLoop_cons_caption h hd hc⟩

/-- Witness for C5's general caption rule at a concrete directive line. -/
theorem C5_prop_witness :
    parseLoop [] ["[MEDIA: 7]".toList, "cap".toList] =
      ((parseLoop [7] []).1, ⟨7, trimL "cap".toList⟩ :: (parseLoop [7] []).2) :=
  C5_prop.2.2 [] "[MEDIA: 7]".toList "cap".toList [] 7 (by decide) (by decide) (by decide)

/-- Claim C6 fails as stated for the first variant's inline parser (its
flush lines 176-200), which keeps no set of seen ids: the response
`"[MEDIA: 2]\n[MEDIA: 2]"`, carrying id 2 on two directive lines, yields two
directives there — and, since the already-sent filter is only a pre-flush
snapshot, that variant's flush dispatches id 2 twice. -/
theorem C6_counterexample :
    (parseFlushV1 (splitLines "[MEDIA: 2]\n[MEDIA: 2]".toList)).2 =
      [⟨2, []⟩, ⟨2, []⟩] ∧
    dispatchedIds (flushConversationV1 [] (some "[MEDIA: 2]\n[MEDIA: 2]".toList) []
      [⟨"u".toList, MType.image, "d".toList⟩, ⟨"w".toList, MType.video, "e".toList⟩]
      false false 0) = [2, 2] := by
  refine ⟨by decide, by decide⟩

/-- Claim C6, amended: the second variant's `parseAIResponse` emits each
directive id at most once — the second and later occurrences of the same id
are ignored — an id is emitted exactly when some line carries it,
zero-directive responses yield an empty request list, and an id occurring on
two or more directive lines is emitted exactly once; the first variant's
inline parser, by contrast, keeps no seen-id set and emits one directive per
duplicated directive line. -/
theorem C6_prop :
    (∀ response : List Char,
      (((parseAIResponse response).mediaRequests.map MediaRequest.id).Nodup) ∧
      (∀ id, id ∈ (parseAIResponse response).mediaRequests.map MediaRequest.id ↔
        ∃ line ∈ splitLines response, lineDirectiveId line = some id) ∧
      ((∀ line ∈ splitLines response, lineDirectiveId line = none) →
        (parseAIResponse response).mediaRequests = []) ∧
      (∀ id, 2 ≤ (splitLines response).countP (fun l => lineDirectiveId l = some id) →
        ((parseAIResponse response).mediaRequests.map MediaRequest.id).count id = 1)) ∧
    (∀ (l : List Char) (id : Nat), findTagId l = some id →
      hasMediaTagStart (trimL l) = true →
      (parseFlushV1 [l, l]).2 = [⟨id, []⟩, ⟨id, []⟩]) := by
  constructor
  · intro response
    have hreq : (parseAIResponse response).mediaRequests =
        (parseLoop [] (splitLines response)).2 := rfl
    obtain ⟨⟨hnd, -⟩, hiff⟩ := parseLoop_ids [] (splitLines response)
    rw [hreq]
    refine ⟨hnd, fun id => hiff id (by simp), ?_, ?_⟩
    · intro hnone
      have := (hiff 0 (by simp))
      cases hp : (parseLoop [] (splitLines response)).2 with
      | nil => rfl
      | cons r rs =>
        have hr : r.id ∈ (parseLoop [] (splitLines response)).2.map MediaRequest.id := by
          rw [hp]; simp
        obtain ⟨l, hl, hld⟩ := (hiff r.id (by simp)).mp hr
        rw [hnone l hl] at hld
        cases hld
    · intro id hcount
      have hex : ∃ l ∈ splitLines response, lineDirectiveId l = some id := by
        have : 0 < (splitLines response).countP (fun l => lineDirectiveId l = some id) := by
          omega
        obtain ⟨l, hl, hld⟩ := List.countP_pos_iff.mp this
        exact ⟨l, hl, by simpa using hld⟩
      have hmem := (hiff id (by simp)).mpr hex
      exact List.count_eq_one_of_mem hnd hmem
  · intro l id hl hstart
    have hcond : (!(trimL l).isEmpty && !hasMediaTagStart (trimL l)) = false := by
      simp [hstart]
    simp [parseFlushV1, hl, hcond]

/-- Witness for C6's amended theorem: the duplicated response
`"[MEDIA: 2]\n[MEDIA: 2]"` yields exactly one request in the second
variant's parser and two requests in the first variant's. -/
theorem C6_prop_witness :
    ((parseAIResponse "[MEDIA: 2]\n[MEDIA: 2]".toList).mediaRequests.map
      MediaRequest.id).count 2 = 1 ∧
    (parseFlushV1 ["[MEDIA: 2]".toList, "[MEDIA: 2]".toList]).2 =
      [⟨2, []⟩, ⟨2, []⟩] :=
  ⟨(C6_prop.1 "[MEDIA: 2]\n[MEDIA: 2]".toList).2.2.2 2 (by decide),
   C6_prop.2 "[MEDIA: 2]".toList 2 (by decide) (by decide)⟩


/-- Claim C7 fails as stated: `parseAIResponse` is not the identity on
directive-free input.  `"a\n\nb"` contains no directive line, yet the prose
output drops the blank line: it is `"a\nb"`, not the input. -/
theorem C7_counterexample :
    (∀ line ∈ splitLines "a\n\nb".toList, lineDirectiveId line = none) ∧
    (parseAIResponse "a\n\nb".toList).mediaRequests = [] ∧
    (parseAIResponse "a\n\nb".toList).textContent ≠ "a\n\nb".toList := by
  refine ⟨by decide, by decide, by decide⟩

/-- Claim C7, amended: on input with no directive line, `parseAIResponse`
returns an empty directive list and, as prose, exactly the non-empty lines of
the input, unchanged and in order (joined by newline and trimmed at the
ends); when additionally no line is blank and the input carries no leading or
trailing whitespace, the prose equals the input exactly. -/
theorem C7_prop :
    ∀ s : List Char, (∀ line ∈ splitLines s, lineDirectiveId line = none) →
      parseAIResponse s =
        ⟨trimL (joinLines ((splitLines s).filter (fun l => !(trimL l).isEmpty))), []⟩ ∧
      ((∀ line ∈ splitLines s, ¬(trimL line).isEmpty = true) → trimL s = s →
        parseAIResponse s = ⟨s, []⟩) := by
  intro s hnd
  have hloop := parseLoop_no_directive [] (splitLines s) hnd
  have hbase : parseAIResponse s =
      ⟨trimL (joinLines ((splitLines s).filter (fun l => !(trimL l).isEmpty))), []⟩ := by
    rw [parseAIResponse, hloop]
  refine ⟨hbase, ?_⟩
  intro hnb htrim
  rw [hbase]
  have hfilter : (splitLines s).filter (fun l => !(trimL l).isEmpty) = splitLines s := by
    apply List.filter_eq_self.mpr
    intro l hl
    simpa using hnb l hl
  rw [hfilter, joinLines_splitLines, htrim]

/-- Witness for C7's amended theorem at the directive-free input `"hi"`. -/
theorem C7_prop_witness : parseAIResponse "hi".toList = ⟨"hi".toList, []⟩ :=
  (C7_prop "hi".toList (by decide)).2 (by decide) (by decide)


theorem digit_ne_lbracket {c : Char} (h : isDigitCh c = true) : (c = '[') = False := by
  simp only [eq_iff_iff, iff_false]
  intro he
  subst he
  cases h

theorem findTagId_eq_none_of_no_lbracket :
    ∀ l : List Char, (∀ c ∈ l, (c = '[') = False) → findTagId l = none := by
  intro l
  induction l with
  | nil => intro _; rfl
  | cons c cs ih =>
    intro h
    rw [findTagId, mediaTagAt, if_neg (by simp [h c (by simp)])]
    exact ih fun x hx => h x (by simp [hx])

theorem findTagId_renderMarkerV1 (id : Nat) : findTagId (renderMarkerV1 id) = none := by
  have hlit : markerV1Lit = '[' :: "שלחתי מדיה: #".toList := by decide
  have hrender : renderMarkerV1 id =
      '[' :: ("שלחתי מדיה: #".toList ++ (natDigits id ++ [']'])) := by
    rw [renderMarkerV1, hlit]
    simp
  rw [hrender, findTagId]
  have hhead : mediaTagAt ('[' :: ("שלחתי מדיה: #".toList ++ (natDigits id ++ [']']))) =
      none := by
    rw [mediaTagAt, if_pos rfl]
    have hsplit : "שלחתי מדיה: #".toList = 'ש' :: "לחתי מדיה: #".toList := by decide
    rw [hsplit, List.cons_append]
    rw [show stripLitCI mediaLit ('ש' :: ("לחתי מדיה: #".toList ++ (natDigits id ++ [']']))) =
      none from by simp [mediaLit, stripLitCI]]
    rfl
  rw [hhead]
  apply findTagId_eq_none_of_no_lbracket
  intro c hc
  rcases List.mem_append.mp hc with h | h
  · have hfin : ∀ x ∈ "שלחתי מדיה: #".toList, (x = '[') = False := by decide
    exact hfin c h
  · rcases List.mem_append.mp h with h | h
    · exact digit_ne_lbracket (natDigits_all_digit id c h)
    · simp only [List.mem_singleton] at h
      subst h
      decide

theorem findMarkerV2Id_renderMarkerV2 (id : Nat) :
    findMarkerV2Id (renderMarkerV2 id) = some id := by
  have hlit : markerV2Lit = '(' :: "שלחתי מדיה #".toList := by decide
  have hrender : renderMarkerV2 id =
      '(' :: ("שלחתי מדיה #".toList ++ (natDigits id ++ [')'])) := by
    rw [renderMarkerV2, hlit]
    simp
  have hat := markerV2At_render id []
  rw [List.append_nil, hrender] at hat
  rw [hrender, findMarkerV2Id, hat]


/-- Claim C8 fails as stated for the second variant: its `parseAIResponse`
deliberately also accepts the sent-marker pattern (`wrongPattern` in the
source) as a directive.  The line `(שלחתי מדיה #3)` matches only the
sent-marker pattern, yet the parser emits the directive `{id 3}` for it. -/
theorem C8_counterexample :
    findMarkerV2Id (renderMarkerV2 3) = some 3 ∧
    findTagId (renderMarkerV2 3) = none ∧
    (parseAIResponse (renderMarkerV2 3)).mediaRequests = [⟨3, []⟩] := by
  refine ⟨by decide, by decide, by decide⟩

/-- Claim C8, amended: the sent-marker tokens are textually distinct from the
`[MEDIA: id]` directive syntax — the first variant's marker never matches the
directive pattern and its parser emits no directive for a marker line —
while the second variant's `parseAIResponse` deliberately recognises its
marker pattern as a directive; the flush's already-sent filter then
suppresses any dispatch for an id recorded in the log. -/
theorem C8_prop :
    ∀ (id : Nat) (history : List ChatMessage) (response : Option (List Char))
      (batch : List NormalizedMessage) (catalog : List MediaItem)
      (vE vO : Bool) (now : Nat) (u : List Char) (ty : MType)
      (cap : Option (List Char)),
      findTagId (renderMarkerV1 id) = none ∧
      (parseFlushV1 [renderMarkerV1 id]).2 = [] ∧
      findMarkerV2Id (renderMarkerV2 id) = some id ∧
      (id ∈ getSentMediaIds history →
        Event.dispatchMedia id u ty cap ∉
          flushConversationV2 history response batch catalog vE vO now) := by
  intro id history response batch catalog vE vO now u ty cap
  refine ⟨findTagId_renderMarkerV1 id, ?_, findMarkerV2Id_renderMarkerV2 id,
    fun h => flushV2_no_dispatch_of_marked h u ty cap⟩
  rw [parseFlushV1, findTagId_renderMarkerV1 id]
  split
  · rename_i heq
    cases heq
  · split <;> rfl

/-- Witness for C8's amended theorem at id 3 with that id recorded in the
log: replaying the marker-shaped line dispatches nothing. -/
theorem C8_prop_witness :
    Event.dispatchMedia 3 "u".toList MType.image none ∉
      flushConversationV2 [⟨Role.assistant, renderMarkerV2 3, 0⟩]
        (some (renderMarkerV2 3)) [] [⟨"u".toList, MType.image, "d".toList⟩]
        false false 0 :=
  (C8_prop 3 [⟨Role.assistant, renderMarkerV2 3, 0⟩] (some (renderMarkerV2 3)) []
    [⟨"u".toList, MType.image, "d".toList⟩] false false 0 "u".toList MType.image
    none).2.2.2 (by decide)


/-- Claim C9: every outbound send (text, media, voice) is a total function
returning a boolean (all errors are caught); on HTTP 429 it retries with
backoff delay `RETRY_DELAY_MS * attempt`, linearly increasing, for at most
`MAX_RETRIES = 3` retries, reporting `false` after exhaustion; any
non-retryable outcome returns `false` immediately; and it returns `true`
exactly when some attempt within the retry budget is delivered after only
rate-limited attempts. -/
theorem C9_prop :
    ∀ t : Nat → SendOutcome,
      ((sendTextMessage t 0).2.length ≤ MAX_RETRIES ∧
       (sendTextMessage t 0).2 = (List.range (sendTextMessage t 0).2.length).map
         (fun i => RETRY_DELAY_MS * (i + 1)) ∧
       ((∀ j, j ≤ MAX_RETRIES → t j = SendOutcome.rateLimited) →
         sendTextMessage t 0 = (false, [5000, 10000, 15000])) ∧
       ((sendTextMessage t 0).1 = true ↔ ∃ k, k ≤ MAX_RETRIES ∧
         t k = SendOutcome.delivered ∧ ∀ j, j < k → t j = SendOutcome.rateLimited) ∧
       (t 0 = SendOutcome.apiRejected ∨ t 0 = SendOutcome.transportError →
         sendTextMessage t 0 = (false, []))) ∧
      sendMedia t 0 = sendTextMessage t 0 ∧
      sendVoiceMessage t 0 = sendTextMessage t 0 := by
  intro t
  obtain ⟨h1, h2, h3, h4⟩ := sendTextMessage_spec MAX_RETRIES 0 t (by omega) (by omega)
  refine ⟨⟨by simpa using h1, by simpa using h2, ?_, ?_, ?_⟩,
    sendMedia_eq_sendTextMessage t 0, sendVoiceMessage_eq_sendTextMessage t 0⟩
  · intro hall
    have := h3 (fun j _ hj2 => hall j hj2)
    rw [this]
    rfl
  · rw [h4]
    constructor
    · rintro ⟨k, -, h2k, h3k, h4k⟩
      exact ⟨k, h2k, h3k, fun j hj => h4k j (by omega) hj⟩
    · rintro ⟨k, h2k, h3k, h4k⟩
      exact ⟨k, by omega, h2k, h3k, fun j _ hj => h4k j hj⟩
  · rintro (h | h)
    · exact sendTextMessage_apiRejected h
    · exact sendTextMessage_transportError h

/-- Witness for C9 at the always-rate-limited transport: three linearly
backed-off retries, then failure. -/
theorem C9_prop_witness :
    sendTextMessage (fun _ => SendOutcome.rateLimited) 0 = (false, [5000, 10000, 15000]) :=
  (C9_prop (fun _ => SendOutcome.rateLimited)).1.2.2.1 (fun _ _ => rfl)

/-- Claim C10: `getMediaById` treats ids as 1-based catalog positions: for
`1 ≤ id ≤ catalog.length` it returns the entry at index `id - 1` (always
`some`), and for every other integer id — zero, negative, or past the end —
it returns `none` without failing. -/
theorem C10_prop :
    ∀ (catalog : List MediaItem) (id : Int),
      (1 ≤ id → id ≤ (catalog.length : Int) →
        getMediaById catalog id = catalog.get? (id - 1).toNat ∧
        (getMediaById catalog id).isSome = true) ∧
      (id ≤ 0 ∨ (catalog.length : Int) < id → getMediaById catalog id = none) := by
  intro catalog id
  constructor
  · intro h1 h2
    have hcond : ¬(id - 1 < 0 ∨ (catalog.length : Int) ≤ id - 1) := by omega
    have hget : getMediaById catalog id = catalog.get? (id - 1).toNat := by
      rw [getMediaById, if_neg hcond]
    refine ⟨hget, ?_⟩
    rw [hget]
    have hlt : (id - 1).toNat < catalog.length := by omega
    rw [List.get?_eq_get hlt]
    rfl
  · intro h
    have hcond : id - 1 < 0 ∨ (catalog.length : Int) ≤ id - 1 := by omega
    rw [getMediaById, if_pos hcond]

/-- Witness for C10 on a one-entry catalog: id 1 resolves to the entry, id 0
resolves to nothing. -/
theorem C10_prop_witness :
    getMediaById [⟨"u".toList, MType.image, "d".toList⟩] 1 =
      [(⟨"u".toList, MType.image, "d".toList⟩ : MediaItem)].get? 0 ∧
    getMediaById [⟨"u".toList, MType.image, "d".toList⟩] 0 = none :=
  ⟨((C10_prop [⟨"u".toList, MType.image, "d".toList⟩] 1).1 (by decide) (by decide)).1,
   (C10_prop [⟨"u".toList, MType.image, "d".toList⟩] 0).2 (by decide)⟩

end BwhitePlast
